import Mathlib

/-!
Verification of the modelsafe model engine (`src/model.ts`, plus the earlier
base no-associations variant of the `Model` class).

We shallowly embed the JavaScript data world as an inductive `Value` type
(`null`/`undefined` collapse to `vnil`; absence of an object key reads as
`vnil`, matching `undefined` property access).  Model instances and plain
JSON objects are association lists of string keys to values.  The attribute
and association registries (`getAttributes`, `getAssociations`,
`getAttributeValidations`) are external collaborators in the source; we model
a registry snapshot as a `ModelType` record, and a collection of model
classes as an environment list `Env` in which association targets are
resolved (an unresolvable target models JavaScript `undefined`).

Asynchronous functions in the source have no concurrency effects relevant to
the verified properties (awaits are sequential or independent), so they are
embedded as pure functions returning `Except ModelError`.
-/

/-- A JavaScript/JSON value as manipulated by the model engine.
`vnil` stands for both `null` and `undefined` (the source only ever
distinguishes them through `_.isNil`, which identifies them).
`vdate` is a genuine `Date` object carrying its millisecond timestamp. -/
inductive Value where
  | vnil : Value
  | vbool : Bool → Value
  | vnum : Int → Value
  | vstr : String → Value
  | vdate : Int → Value
  | varr : List Value → Value
  | vobj : List (String × Value) → Value

/-- A plain JavaScript object: ordered string-keyed fields. -/
abbrev Obj := List (String × Value)

/-- `_.isNil(value)`: true for `null`/`undefined`. -/
def Value.isNil : Value → Bool
  | .vnil => true
  | _ => false

/-- `_.isArray(value)`. -/
def Value.isArray : Value → Bool
  | .varr _ => true
  | _ => false

/-- `_.isPlainObject(value)`. -/
def Value.isPlainObject : Value → Bool
  | .vobj _ => true
  | _ => false

/-- The fields of a plain object (empty for non-objects). -/
def Value.objFields : Value → Obj
  | .vobj fields => fields
  | _ => []

/-- JavaScript truthiness of a value. -/
def Value.truthy : Value → Bool
  | .vnil => false
  | .vbool b => b
  | .vnum n => n != 0
  | .vstr s => s != ""
  | .vdate _ => true
  | .varr _ => true
  | .vobj _ => true

/-- Key lookup in an ordered string-keyed record (first match wins). -/
def lookupKey {β : Type} : List (String × β) → String → Option β
  | [], _ => none
  | (k, v) :: rest, key => if k = key then some v else lookupKey rest key

/-- Property read `obj[key]` on a plain object: `undefined` (i.e. `vnil`)
when the key is absent. -/
def getPropObj (obj : Obj) (key : String) : Value :=
  match lookupKey obj key with
  | some v => v
  | none => .vnil

/-- Property read `value[key]`: model instances are objects; reading a
registry key off a non-object yields `undefined`. -/
def getProp : Value → String → Value
  | .vobj fields, key => getPropObj fields key
  | _, _ => .vnil

/-- Property write `obj[key] = v`: overwrite in place if the key exists,
otherwise append (JavaScript object key insertion order). -/
def setProp : Obj → String → Value → Obj
  | [], key, v => [(key, v)]
  | (k, w) :: rest, key, v =>
      if k = key then (k, v) :: rest else (k, w) :: setProp rest key v

/-- `_.toPlainObject(value)`: own enumerable string-keyed properties.
Plain objects keep their fields; arrays and strings expose index keys;
primitives, dates and nil have none. -/
def toPlainObject : Value → Obj
  | .vobj fields => fields
  | .varr xs => xs.enum.map (fun p => (toString p.1, p.2))
  | .vstr s => s.toList.enum.map (fun p => (toString p.1, Value.vstr (String.singleton p.2)))
  | _ => []

/-- `_.pick(obj, keys)`: the key/value pairs of `obj` at the given keys, in
the order the keys are listed; absent keys are dropped. -/
def pickObj (obj : Obj) (keys : List String) : Obj :=
  keys.filterMap (fun k => (lookupKey obj k).map (fun v => (k, v)))

/-- A `PropertyValidationError`: a per-field error with a kind tag
(`type` in the source) and a message. -/
structure PropertyValidationError where
  type : String
  message : String
deriving DecidableEq, Repr

/-- An error thrown by a type validator or a custom validation rule:
either already a `PropertyValidationError`, or any other `Error`
(carrying only its message). -/
inductive ThrownError where
  | property (type message : String)
  | other (message : String)
deriving DecidableEq, Repr

/-- `coerceError` from `Model.validate`: coerce non property validation
errors into an unknown validation error. -/
def coerceError : ThrownError → PropertyValidationError
  | .property t m => ⟨t, m⟩
  | .other m => ⟨"unknown", m⟩

/-- The `attribute.required` report entry pushed for missing required
attributes. -/
def requiredError : PropertyValidationError :=
  ⟨"attribute.required", "Value is required"⟩

/-- An attribute default value: either a concrete value or a lazy-load
resolver function (`isLazyLoad` distinguishes the two). -/
inductive DefaultValue where
  | direct : Value → DefaultValue
  | lazyLoad : (Unit → Value) → DefaultValue

/-- JavaScript truthiness of `attr.defaultValue`: `undefined` (no default)
is falsy, a resolver function is truthy, a concrete value has value
truthiness. -/
def truthyDefault : Option DefaultValue → Bool
  | none => false
  | some (.lazyLoad _) => true
  | some (.direct v) => v.truthy

/-- The concrete value of a default: lazy defaults are invoked. -/
def resolveDefault : Option DefaultValue → Value
  | none => .vnil
  | some (.lazyLoad f) => f ()
  | some (.direct v) => v

/-- An attribute descriptor from the attribute registry.
`typeTag` is `attr.type.type` (used to recognise the `DATE` type);
`validate` is the optional validation capability `attr.type.validate`,
returning `none` on success and the thrown error on failure. -/
structure Attribute where
  typeTag : String
  validate : Option (String → Value → Option ThrownError)
  defaultValue : Option DefaultValue
  optional : Bool

/-- The `type` tag of the `DATE` attribute type (`DATE.type` in the source;
the concrete tag constant lives in `attribute.ts`, outside this file's
sources — only its identity matters). -/
def DATEtype : String := "date"

/-- A decorated custom validation rule: `{ cb, options }`, where the
callback gets `(key, value, options)` and returns `none` on success. -/
structure ValidationRule where
  cb : String → Value → Value → Option ThrownError
  options : Value

/-- Association relationship kinds (`HAS_ONE`, `BELONGS_TO`, `HAS_MANY`,
`BELONGS_TO_MANY` in `association.ts`). -/
inductive AssocKind where
  | hasOne | belongsTo | hasMany | belongsToMany
deriving DecidableEq, Repr

/-- The source's array-like test `assoc.type === HAS_MANY || assoc.type ===
BELONGS_TO_MANY`. -/
def AssocKind.isMany : AssocKind → Bool
  | .hasMany => true
  | .belongsToMany => true
  | _ => false

/-- An association target: either the model constructor directly or a
lazy-load resolver (`isLazyLoad` is true for the latter).  Model
constructors are indices into the environment; `none` models the
JavaScript value `undefined` (e.g. an import cycle that produced an
undefined constructor). -/
inductive TargetRef where
  | direct : Option Nat → TargetRef
  | deferred : Option Nat → TargetRef
deriving DecidableEq, Repr

/-- An association descriptor from the association registry. -/
structure Association where
  kind : AssocKind
  target : TargetRef

/-- A model type: the registry snapshot for one model class.
`attrs` is `getAttributes`, `assocs` is `getAssociations` and
`validations` is `getAttributeValidations` for this constructor. -/
structure ModelType where
  attrs : List (String × Attribute)
  assocs : List (String × Association)
  validations : String → List ValidationRule

/-- An environment of model classes, in which association targets resolve. -/
abbrev Env := List ModelType

/-- Resolve an association target: invoke the resolver when `isLazyLoad`,
then look the constructor up; `none` is the `undefined` constructor the
source guards against with `if (!target)`. -/
def resolveTarget (env : Env) : TargetRef → Option ModelType
  | .direct none => none
  | .direct (some i) => env.get? i
  | .deferred none => none
  | .deferred (some i) => env.get? i

/-- A failure of the engine: either a plain thrown `Error` (a definition
error, e.g. an undefined association target) or a `ValidationError`
carrying the per-attribute report. -/
inductive ModelError where
  | defError : String → ModelError
  | validationError : List (String × List PropertyValidationError) → ModelError
deriving DecidableEq, Repr

/-- Run the decorated custom validation rules for an attribute.  Each rule
is tried independently (try/catch inside the loop) and failures are
coerced like type validation failures. -/
def runRules (rules : List ValidationRule) (key : String) (value : Value) :
    List PropertyValidationError :=
  rules.filterMap (fun r => (r.cb key value r.options).map coerceError)

/-- The per-attribute body of `Model.validate` from `src/model.ts` (the
association-aware variant): the `attrErrors` accumulated for one key.
A nil value on an optional attribute — or any nil value when
`options.required` is false — skips the attribute entirely; otherwise a
nil value records `attribute.required` and validation falls through.
When the type exposes `validate` and the value is nil with a truthy
default, the local `value` variable is reassigned to the default's
concrete value, so both the type validation and the custom rules see the
substituted value. -/
def validateAttr (required : Bool) (key : String) (attr : Attribute)
    (rules : List ValidationRule) (value : Value) : List PropertyValidationError :=
  if value.isNil && (attr.optional || !required) then []
  else
    let requiredErrs := if value.isNil then [requiredError] else []
    match attr.validate with
    | some vf =>
        let value' :=
          if value.isNil && truthyDefault attr.defaultValue then
            resolveDefault attr.defaultValue
          else value
        let typeErrs :=
          match vf key value' with
          | some e => [coerceError e]
          | none => []
        requiredErrs ++ typeErrs ++ runRules rules key value'
    | none =>
        requiredErrs ++ runRules rules key value

/-- The per-attribute body of `Model.validate` from the base
no-associations variant of the model class: no `required` option and no
default-value substitution — the type validator and the rules always see
the instance's (possibly nil) value. -/
def validateAttr0 (key : String) (attr : Attribute)
    (rules : List ValidationRule) (value : Value) : List PropertyValidationError :=
  if value.isNil && attr.optional then []
  else
    let requiredErrs := if value.isNil then [requiredError] else []
    let typeErrs :=
      match attr.validate with
      | some vf =>
          match vf key value with
          | some e => [coerceError e]
          | none => []
      | none => []
    requiredErrs ++ typeErrs ++ runRules rules key value

/-- `errors[key] = (errors[key] || []).concat(attrErrors)`: append the
errors for a key onto the report, creating the entry if absent. -/
def addErrors : List (String × List PropertyValidationError) → String →
    List PropertyValidationError → List (String × List PropertyValidationError)
  | [], key, errs => [(key, errs)]
  | (k, es) :: rest, key, errs =>
      if k = key then (k, es ++ errs) :: rest
      else (k, es) :: addErrors rest key errs

/-- The attribute loop of `Model.validate`: run the per-attribute check
(`perAttr`) over every registry entry, skipping empty error lists and
accumulating the rest into the report.  The loop body is shared between
the two variants of the model class. -/
def collectErrors (perAttr : String → Attribute → List PropertyValidationError) :
    List (String × Attribute) → List (String × List PropertyValidationError) →
    List (String × List PropertyValidationError)
  | [], report => report
  | (key, attr) :: rest, report =>
      let attrErrors := perAttr key attr
      if attrErrors.length < 1 then collectErrors perAttr rest report
      else collectErrors perAttr rest (addErrors report key attrErrors)

/-- `Model.validate` from `src/model.ts`: validate all attributes, then
throw a `ValidationError` with the full report only if at least one
attribute accumulated errors. -/
def validateModel (m : ModelType) (inst : Value) (required : Bool) :
    Option ModelError :=
  let errors := collectErrors
    (fun key attr => validateAttr required key attr (m.validations key) (getProp inst key))
    m.attrs []
  if 0 < errors.length then some (.validationError errors) else none

/-- `Model.validate` from the base no-associations variant. -/
def validateModel0 (m : ModelType) (inst : Value) : Option ModelError :=
  let errors := collectErrors
    (fun key attr => validateAttr0 key attr (m.validations key) (getProp inst key))
    m.attrs []
  if 0 < errors.length then some (.validationError errors) else none

/-- `new Date(string)`: the host runtime's ISO-string date parsing.  The
numeric timestamp it produces is irrelevant to the verified properties
(only that the result is a genuine date value, never a string), so the
embedding uses a fixed timestamp. -/
def jsDateParse (_s : String) : Int := 0

/-- The date-coercion loop of `Model.deserialize`: for every attribute
declared with the `DATE` type whose current value is a string, replace it
with a parsed `Date` object. -/
def dateCoerce : List (String × Attribute) → Obj → Obj
  | [], inst => inst
  | (key, attr) :: rest, inst =>
      dateCoerce rest
        (if attr.typeTag = DATEtype then
          match lookupKey inst key with
          | some (.vstr s) => setProp inst key (.vdate (jsDateParse s))
          | _ => inst
        else inst)

mutual
/-- `Model.serialize` from `src/model.ts`, with an explicit fuel argument
to present the recursion structurally; the wrapper `serializeModel`
supplies enough fuel that the fuel-exhaustion branch is unreachable
(recursion is bounded by the depth option: each association traversal
decrements `depth` and recursion stops once the decremented depth is
negative).  The instance is projected to a plain object restricted to the
registered attribute keys; when `associations` is enabled, the
association loop then populates the association keys. -/
def serializeF : Nat → Env → ModelType → Value → Bool → Int → Except ModelError Value
  | 0, _, _, _, _, _ => .error (.defError "recursion bound exhausted")
  | fuel + 1, env, m, inst, assocFlag, depth =>
    let result := pickObj (toPlainObject inst) (m.attrs.map Prod.fst)
    if assocFlag then
      match serializeAssocsF fuel env inst m.assocs depth result with
      | .ok r => .ok (.vobj r)
      | .error e => .error e
    else .ok (.vobj result)
  termination_by fuel _ _ _ _ _ => (fuel, 0, 0)

/-- The association loop of `Model.serialize`.  `depth` is the loop's
`options.depth`; the recursive calls use `assocOptions.depth = depth - 1`
and the guard is `assocOptions.depth >= 0`.  Nil association values are
skipped; a target that resolves to an undefined constructor throws a
definition error before the depth guard is consulted; a to-many value
that is not an array falls back to an empty array. -/
def serializeAssocsF : Nat → Env → Value → List (String × Association) → Int → Obj →
    Except ModelError Obj
  | fuel, env, inst, assocs, depth, result =>
    match assocs with
    | [] => .ok result
    | (key, assoc) :: rest =>
      let value := getProp inst key
      if value.isNil then serializeAssocsF fuel env inst rest depth result
      else
        match resolveTarget env assoc.target with
        | none =>
            .error (.defError ("Cannot serialize because association " ++ key ++ " is not defined"))
        | some target =>
          if 0 ≤ depth - 1 then
            if assoc.kind.isMany then
              match value with
              | .varr items =>
                match serializeListF fuel env target items depth with
                | .ok ser =>
                    serializeAssocsF fuel env inst rest depth (setProp result key (.varr ser))
                | .error e => .error e
              | _ => serializeAssocsF fuel env inst rest depth (setProp result key (.varr []))
            else
              match serializeF fuel env target value true (depth - 1) with
              | .ok s => serializeAssocsF fuel env inst rest depth (setProp result key s)
              | .error e => .error e
          else serializeAssocsF fuel env inst rest depth result
  termination_by fuel _ _ assocs _ _ => (fuel, 2, assocs.length)

/-- `Promise.all(_.map(value, item => target.serialize(item, assocOptions)))`:
serialize every element of a to-many value in order. -/
def serializeListF : Nat → Env → ModelType → List Value → Int → Except ModelError (List Value)
  | _, _, _, [], _ => .ok []
  | fuel, env, target, item :: rest, depth =>
    match serializeF fuel env target item true (depth - 1) with
    | .ok s =>
      match serializeListF fuel env target rest depth with
      | .ok ss => .ok (s :: ss)
      | .error e => .error e
    | .error e => .error e
  termination_by fuel _ _ items _ => (fuel, 1, items.length)
end

/-- `Model.serialize` with its options (`associations` defaulting to true,
`depth` defaulting to 1): the fuel `(depth+1).toNat + 1` dominates the
depth-bounded recursion. -/
def serializeModel (env : Env) (m : ModelType) (inst : Value)
    (assocFlag : Bool) (depth : Int) : Except ModelError Value :=
  serializeF ((depth + 1).toNat + 1) env m inst assocFlag depth

mutual
/-- `Model.deserialize` from `src/model.ts`, fueled like `serializeF`.
The data is normalised to a plain object (cloning is identity in a pure
embedding), the instance is constructed with `defaults: false` from the
data restricted to attribute keys, string values of `DATE`-typed
attributes are coerced to dates, the association loop populates
association keys, and finally `instance.validate()` runs when the
`validate` option is enabled. -/
def deserializeF : Nat → Env → ModelType → Value → Bool → Bool → Int → Except ModelError Value
  | 0, _, _, _, _, _, _ => .error (.defError "recursion bound exhausted")
  | fuel + 1, env, m, data, validateFlag, assocFlag, depth =>
    let dataObj := if data.isPlainObject then data.objFields else toPlainObject data
    let instance0 := pickObj dataObj (m.attrs.map Prod.fst)
    let instance1 := dateCoerce m.attrs instance0
    match (if assocFlag then
            deserializeAssocsF fuel env dataObj m.assocs validateFlag depth instance1
           else .ok instance1) with
    | .error e => .error e
    | .ok inst =>
      if validateFlag then
        match validateModel m (.vobj inst) true with
        | some e => .error e
        | none => .ok (.vobj inst)
      else .ok (.vobj inst)
  termination_by fuel _ _ _ _ _ _ => (fuel, 0, 0)

/-- The association loop of `Model.deserialize`.  Values are read from the
source data object; `assocOptions` inherits the `validate` flag and uses
`depth - 1`.  Nil values are skipped; an undefined target throws a
definition error before the depth guard; a to-many value that is not an
array assigns an empty array; below the depth bound the association key
is left unset. -/
def deserializeAssocsF : Nat → Env → Obj → List (String × Association) → Bool → Int → Obj →
    Except ModelError Obj
  | fuel, env, dataObj, assocs, validateFlag, depth, inst =>
    match assocs with
    | [] => .ok inst
    | (key, assoc) :: rest =>
      let value := getPropObj dataObj key
      if value.isNil then deserializeAssocsF fuel env dataObj rest validateFlag depth inst
      else
        match resolveTarget env assoc.target with
        | none =>
            .error (.defError ("Cannot deserialize because association " ++ key ++ " is not defined"))
        | some target =>
          if 0 ≤ depth - 1 then
            if assoc.kind.isMany then
              match value with
              | .varr items =>
                match deserializeListF fuel env target items validateFlag depth with
                | .ok ds =>
                    deserializeAssocsF fuel env dataObj rest validateFlag depth
                      (setProp inst key (.varr ds))
                | .error e => .error e
              | _ =>
                  deserializeAssocsF fuel env dataObj rest validateFlag depth
                    (setProp inst key (.varr []))
            else
              match deserializeF fuel env target value validateFlag true (depth - 1) with
              | .ok d =>
                  deserializeAssocsF fuel env dataObj rest validateFlag depth (setProp inst key d)
              | .error e => .error e
          else deserializeAssocsF fuel env dataObj rest validateFlag depth inst
  termination_by fuel _ _ assocs _ _ _ => (fuel, 2, assocs.length)

/-- `Promise.all(_.map(value, item => target.deserialize(item,
assocOptions)))`: deserialize every element of a to-many value in order. -/
def deserializeListF : Nat → Env → ModelType → List Value → Bool → Int →
    Except ModelError (List Value)
  | _, _, _, [], _, _ => .ok []
  | fuel, env, target, item :: rest, validateFlag, depth =>
    match deserializeF fuel env target item validateFlag true (depth - 1) with
    | .ok d =>
      match deserializeListF fuel env target rest validateFlag depth with
      | .ok ds => .ok (d :: ds)
      | .error e => .error e
    | .error e => .error e
  termination_by fuel _ _ items _ _ => (fuel, 1, items.length)
end

/-- `Model.deserialize` with its options (`validate` and `associations`
defaulting to true, `depth` defaulting to 1). -/
def deserializeModel (env : Env) (m : ModelType) (data : Value)
    (validateFlag assocFlag : Bool) (depth : Int) : Except ModelError Value :=
  deserializeF ((depth + 1).toNat + 1) env m data validateFlag assocFlag depth


/-! ### Basic lemmas about the object operations -/

theorem lookupKey_setProp_self (obj : Obj) (key : String) (v : Value) :
    lookupKey (setProp obj key v) key = some v := by
  induction obj with
  | nil => simp [setProp, lookupKey]
  | cons hd tl ih =>
    obtain ⟨k, w⟩ := hd
    by_cases h : k = key <;> simp [setProp, h, lookupKey, ih]

theorem lookupKey_setProp_other (obj : Obj) (key k' : String) (v : Value)
    (hne : k' ≠ key) : lookupKey (setProp obj key v) k' = lookupKey obj k' := by
  induction obj with
  | nil => simp [setProp, lookupKey, Ne.symm hne]
  | cons hd tl ih =>
    obtain ⟨k, w⟩ := hd
    by_cases hk : k = key
    · subst hk
      simp [setProp, lookupKey, Ne.symm hne]
    · simp [setProp, hk, lookupKey]
      by_cases hk' : k = k' <;> simp [hk', ih]

theorem mem_setProp (obj : Obj) (key k' : String) (v v' : Value)
    (h : (k', v') ∈ setProp obj key v) : (k', v') ∈ obj ∨ k' = key := by
  induction obj with
  | nil => simp [setProp] at h; exact Or.inr h.1
  | cons hd tl ih =>
    obtain ⟨k, w⟩ := hd
    by_cases hk : k = key
    · subst hk
      simp [setProp] at h
      rcases h with ⟨h1, _⟩ | h
      · exact Or.inr h1
      · exact Or.inl (List.mem_cons_of_mem _ h)
    · simp [setProp, hk] at h
      rcases h with ⟨h1, h2⟩ | h
      · exact Or.inl (by simp [h1, h2])
      · rcases ih h with h | h
        · exact Or.inl (List.mem_cons_of_mem _ h)
        · exact Or.inr h

theorem mem_pickObj (obj : Obj) (keys : List String) (k : String) (v : Value)
    (h : (k, v) ∈ pickObj obj keys) : k ∈ keys := by
  simp only [pickObj, List.mem_filterMap] at h
  obtain ⟨k', hk', hv⟩ := h
  rcases Option.map_eq_some'.mp hv with ⟨w, _, heq⟩
  cases heq
  exact hk'

theorem lookupKey_pickObj (obj : Obj) (keys : List String) (k : String) :
    lookupKey (pickObj obj keys) k = if k ∈ keys then lookupKey obj k else none := by
  induction keys with
  | nil => simp [pickObj, lookupKey]
  | cons k' ks ih =>
    simp only [pickObj, List.filterMap_cons] at ih ⊢
    by_cases hk : k = k'
    · subst hk
      cases h : lookupKey obj k with
      | none => simp [ih, h]
      | some v => simp [lookupKey, h]
    · cases h : lookupKey obj k' with
      | none => simp [ih, hk, List.mem_cons, hk]
      | some v => simp [lookupKey, Ne.symm hk, ih, hk, List.mem_cons]

theorem getPropObj_pickObj (obj : Obj) (keys : List String) (k : String) (hk : k ∈ keys) :
    getPropObj (pickObj obj keys) k = getPropObj obj k := by
  simp [getPropObj, lookupKey_pickObj, hk]

/-! ### Lemmas about the validation report accumulator -/

theorem lookupKey_addErrors_self (report : List (String × List PropertyValidationError))
    (key : String) (errs : List PropertyValidationError) :
    lookupKey (addErrors report key errs) key =
      some (((lookupKey report key).getD []) ++ errs) := by
  induction report with
  | nil => simp [addErrors, lookupKey]
  | cons hd tl ih =>
    obtain ⟨k, es⟩ := hd
    by_cases h : k = key <;> simp [addErrors, h, lookupKey, ih]

theorem lookupKey_addErrors_other (report : List (String × List PropertyValidationError))
    (key k' : String) (errs : List PropertyValidationError) (h : k' ≠ key) :
    lookupKey (addErrors report key errs) k' = lookupKey report k' := by
  induction report with
  | nil => simp [addErrors, lookupKey, Ne.symm h]
  | cons hd tl ih =>
    obtain ⟨k, es⟩ := hd
    by_cases hk : k = key
    · subst hk
      simp [addErrors, lookupKey, Ne.symm h]
    · simp [addErrors, hk, lookupKey]
      by_cases hk' : k = k' <;> simp [hk', ih]

theorem collectErrors_mono (perAttr : String → Attribute → List PropertyValidationError)
    (attrs : List (String × Attribute)) (report : List (String × List PropertyValidationError))
    (k : String) (l : List PropertyValidationError) (e : PropertyValidationError)
    (hl : lookupKey report k = some l) (he : e ∈ l) :
    ∃ l', lookupKey (collectErrors perAttr attrs report) k = some l' ∧ e ∈ l' := by
  induction attrs generalizing report l with
  | nil => exact ⟨l, hl, he⟩
  | cons hd tl ih =>
    obtain ⟨key, attr⟩ := hd
    simp only [collectErrors]
    by_cases hempty : (perAttr key attr).length < 1
    · simp only [hempty, if_true]
      exact ih report l hl he
    · simp only [hempty, if_false]
      by_cases hk : k = key
      · subst hk
        refine ih _ (l ++ perAttr k attr) ?_ (List.mem_append_left _ he)
        simp [lookupKey_addErrors_self, hl]
      · exact ih _ l (by rw [lookupKey_addErrors_other _ _ _ _ hk]; exact hl) he

theorem collectErrors_mem (perAttr : String → Attribute → List PropertyValidationError)
    (attrs : List (String × Attribute)) (report : List (String × List PropertyValidationError))
    (k : String) (attr : Attribute) (e : PropertyValidationError)
    (hmem : (k, attr) ∈ attrs) (he : e ∈ perAttr k attr) :
    ∃ l, lookupKey (collectErrors perAttr attrs report) k = some l ∧ e ∈ l := by
  induction attrs generalizing report with
  | nil => cases hmem
  | cons hd tl ih =>
    obtain ⟨key, a⟩ := hd
    rcases List.mem_cons.mp hmem with heq | htl
    · cases heq
      have hne : ¬ (perAttr k attr).length < 1 := by
        intro hlt
        have hnil : perAttr k attr = [] := List.eq_nil_of_length_eq_zero (by omega)
        rw [hnil] at he; cases he
      simp only [collectErrors, hne, if_false]
      exact collectErrors_mono perAttr tl _ k ((lookupKey report k).getD [] ++ perAttr k attr) e
        (lookupKey_addErrors_self report k (perAttr k attr)) (List.mem_append_right _ he)
    · simp only [collectErrors]
      by_cases hempty : (perAttr key a).length < 1
      · simp only [hempty, if_true]; exact ih _ htl
      · simp only [hempty, if_false]; exact ih _ htl

theorem collectErrors_all_nil (perAttr : String → Attribute → List PropertyValidationError)
    (attrs : List (String × Attribute)) (report : List (String × List PropertyValidationError))
    (h : ∀ k attr, (k, attr) ∈ attrs → perAttr k attr = []) :
    collectErrors perAttr attrs report = report := by
  induction attrs with
  | nil => rfl
  | cons hd tl ih =>
    obtain ⟨key, attr⟩ := hd
    have hk : perAttr key attr = [] := h key attr (by simp)
    simp only [collectErrors, hk]
    exact ih (fun k a hm => h k a (List.mem_cons_of_mem _ hm))

theorem validateModel_none_of_all_nil (m : ModelType) (inst : Value) (required : Bool)
    (h : ∀ k attr, (k, attr) ∈ m.attrs →
      validateAttr required k attr (m.validations k) (getProp inst k) = []) :
    validateModel m inst required = none := by
  simp [validateModel, collectErrors_all_nil _ _ _ h]

theorem validateModel_report_of_mem (m : ModelType) (inst : Value) (required : Bool)
    (k : String) (attr : Attribute) (e : PropertyValidationError)
    (hmem : (k, attr) ∈ m.attrs)
    (he : e ∈ validateAttr required k attr (m.validations k) (getProp inst k)) :
    ∃ report l, validateModel m inst required = some (.validationError report) ∧
      lookupKey report k = some l ∧ e ∈ l := by
  obtain ⟨l, hl, hel⟩ := collectErrors_mem
    (fun key a => validateAttr required key a (m.validations key) (getProp inst key))
    m.attrs [] k attr e hmem he
  refine ⟨_, l, ?_, hl, hel⟩
  have hne : 0 < (collectErrors
      (fun key a => validateAttr required key a (m.validations key) (getProp inst key))
      m.attrs []).length := by
    cases hrep : collectErrors
        (fun key a => validateAttr required key a (m.validations key) (getProp inst key))
        m.attrs [] with
    | nil => rw [hrep] at hl; simp [lookupKey] at hl
    | cons hd tl => simp
  simp [validateModel, hne]

theorem validateModel0_report_of_mem (m : ModelType) (inst : Value)
    (k : String) (attr : Attribute) (e : PropertyValidationError)
    (hmem : (k, attr) ∈ m.attrs)
    (he : e ∈ validateAttr0 k attr (m.validations k) (getProp inst k)) :
    ∃ report l, validateModel0 m inst = some (.validationError report) ∧
      lookupKey report k = some l ∧ e ∈ l := by
  obtain ⟨l, hl, hel⟩ := collectErrors_mem
    (fun key a => validateAttr0 key a (m.validations key) (getProp inst key))
    m.attrs [] k attr e hmem he
  refine ⟨_, l, ?_, hl, hel⟩
  have hne : 0 < (collectErrors
      (fun key a => validateAttr0 key a (m.validations key) (getProp inst key))
      m.attrs []).length := by
    cases hrep : collectErrors
        (fun key a => validateAttr0 key a (m.validations key) (getProp inst key))
        m.attrs [] with
    | nil => rw [hrep] at hl; simp [lookupKey] at hl
    | cons hd tl => simp
  simp [validateModel0, hne]

theorem validateAttr_nil_of_validateModel_none (m : ModelType) (inst : Value) (required : Bool)
    (hnone : validateModel m inst required = none)
    (k : String) (attr : Attribute) (hmem : (k, attr) ∈ m.attrs) :
    validateAttr required k attr (m.validations k) (getProp inst k) = [] := by
  by_contra hne
  obtain ⟨e, he⟩ := List.exists_mem_of_ne_nil _ hne
  obtain ⟨report, l, hrep, _, _⟩ := validateModel_report_of_mem m inst required k attr e hmem he
  rw [hnone] at hrep
  cases hrep

/-! ### Lemmas about the serialization association loop -/

theorem serializeF_succ (fuel : Nat) (env : Env) (m : ModelType) (inst : Value)
    (assocFlag : Bool) (depth : Int) :
    serializeF (fuel + 1) env m inst assocFlag depth =
      (let result := pickObj (toPlainObject inst) (m.attrs.map Prod.fst)
       if assocFlag then
         match serializeAssocsF fuel env inst m.assocs depth result with
         | .ok r => .ok (.vobj r)
         | .error e => .error e
       else .ok (.vobj result)) := by
  simp only [serializeF]

theorem serializeModel_def (env : Env) (m : ModelType) (inst : Value)
    (assocFlag : Bool) (depth : Int) :
    serializeModel env m inst assocFlag depth =
      (let result := pickObj (toPlainObject inst) (m.attrs.map Prod.fst)
       if assocFlag then
         match serializeAssocsF ((depth + 1).toNat) env inst m.assocs depth result with
         | .ok r => .ok (.vobj r)
         | .error e => .error e
       else .ok (.vobj result)) := by
  simp only [serializeModel, serializeF_succ]

theorem serializeAssocsF_ok_of_nonpos (fuel : Nat) (env : Env) (inst : Value)
    (assocs : List (String × Association)) (depth : Int) (r r' : Obj)
    (hd : depth ≤ 0) (h : serializeAssocsF fuel env inst assocs depth r = .ok r') :
    r' = r := by
  induction assocs generalizing r with
  | nil =>
    simp only [serializeAssocsF] at h
    cases h
    rfl
  | cons hd' rest ih =>
    obtain ⟨key, assoc⟩ := hd'
    simp only [serializeAssocsF] at h
    by_cases hnil : (getProp inst key).isNil
    · simp only [hnil, if_true] at h
      exact ih r h
    · simp only [hnil, if_false] at h
      cases hres : resolveTarget env assoc.target with
      | none => rw [hres] at h; cases h
      | some target =>
        rw [hres] at h
        have hg : ¬ (0 ≤ depth - 1) := by omega
        simp only [hg, if_false] at h
        exact ih r h

theorem serializeAssocsF_cons_ok (fuel : Nat) (env : Env) (inst : Value)
    (key : String) (assoc : Association) (rest : List (String × Association))
    (depth : Int) (r r' : Obj)
    (h : serializeAssocsF fuel env inst ((key, assoc) :: rest) depth r = .ok r') :
    ∃ r₀, serializeAssocsF fuel env inst rest depth r₀ = .ok r' ∧
      (∀ k v, (k, v) ∈ r₀ → (k, v) ∈ r ∨ k = key) ∧
      (∀ k, k ≠ key → lookupKey r₀ k = lookupKey r k) ∧
      (assoc.kind.isMany = true → (getProp inst key).isNil = false →
        (getProp inst key).isArray = false → 0 ≤ depth - 1 →
        lookupKey r₀ key = some (.varr [])) := by
  simp only [serializeAssocsF] at h
  by_cases hnil : (getProp inst key).isNil
  · simp only [hnil, if_true] at h
    refine ⟨r, h, fun k v hm => Or.inl hm, fun k _ => rfl, ?_⟩
    intro _ hn _ _
    rw [hnil] at hn
    cases hn
  · simp only [hnil, if_false] at h
    cases hres : resolveTarget env assoc.target with
    | none => rw [hres] at h; cases h
    | some target =>
      rw [hres] at h
      by_cases hg : (0 ≤ depth - 1)
      · simp only [hg, if_true] at h
        by_cases hmany : assoc.kind.isMany
        · simp only [hmany, if_true] at h
          cases hval : getProp inst key with
          | vnil => rw [hval] at hnil; simp [Value.isNil] at hnil
          | varr items =>
            simp only [hval] at h
            cases hlist : serializeListF fuel env target items depth with
            | ok ser =>
              simp only [hlist] at h
              refine ⟨setProp r key (.varr ser), h,
                fun k v hm => mem_setProp _ _ _ _ _ hm,
                fun k hk => lookupKey_setProp_other _ _ _ _ hk, ?_⟩
              intro _ _ ha _
              simp [Value.isArray] at ha
            | error e => simp only [hlist] at h; cases h
          | vbool b =>
            simp only [hval] at h
            exact ⟨setProp r key (.varr []), h,
              fun k v hm => mem_setProp _ _ _ _ _ hm,
              fun k hk => lookupKey_setProp_other _ _ _ _ hk,
              fun _ _ _ _ => lookupKey_setProp_self _ _ _⟩
          | vnum n =>
            simp only [hval] at h
            exact ⟨setProp r key (.varr []), h,
              fun k v hm => mem_setProp _ _ _ _ _ hm,
              fun k hk => lookupKey_setProp_other _ _ _ _ hk,
              fun _ _ _ _ => lookupKey_setProp_self _ _ _⟩
          | vstr s =>
            simp only [hval] at h
            exact ⟨setProp r key (.varr []), h,
              fun k v hm => mem_setProp _ _ _ _ _ hm,
              fun k hk => lookupKey_setProp_other _ _ _ _ hk,
              fun _ _ _ _ => lookupKey_setProp_self _ _ _⟩
          | vdate t =>
            simp only [hval] at h
            exact ⟨setProp r key (.varr []), h,
              fun k v hm => mem_setProp _ _ _ _ _ hm,
              fun k hk => lookupKey_setProp_other _ _ _ _ hk,
              fun _ _ _ _ => lookupKey_setProp_self _ _ _⟩
          | vobj fields =>
            simp only [hval] at h
            exact ⟨setProp r key (.varr []), h,
              fun k v hm => mem_setProp _ _ _ _ _ hm,
              fun k hk => lookupKey_setProp_other _ _ _ _ hk,
              fun _ _ _ _ => lookupKey_setProp_self _ _ _⟩
        · simp only [hmany, if_false] at h
          cases hser : serializeF fuel env target (getProp inst key) true (depth - 1) with
          | ok s =>
            simp only [hser] at h
            refine ⟨setProp r key s, h,
              fun k v hm => mem_setProp _ _ _ _ _ hm,
              fun k hk => lookupKey_setProp_other _ _ _ _ hk, ?_⟩
            intro hm _ _ _
            exact absurd hm hmany
          | error e => simp only [hser] at h; cases h
      · simp only [hg, if_false] at h
        refine ⟨r, h, fun k v hm => Or.inl hm, fun k _ => rfl, ?_⟩
        intro _ _ _ hdg
        cases hg hdg

theorem serializeAssocsF_mem_keys (fuel : Nat) (env : Env) (inst : Value)
    (assocs : List (String × Association)) (depth : Int) (r r' : Obj)
    (h : serializeAssocsF fuel env inst assocs depth r = .ok r')
    (k : String) (v : Value) (hv : (k, v) ∈ r') :
    (k, v) ∈ r ∨ k ∈ assocs.map Prod.fst := by
  induction assocs generalizing r with
  | nil =>
    simp only [serializeAssocsF] at h
    cases h
    exact Or.inl hv
  | cons hd' rest ih =>
    obtain ⟨key, assoc⟩ := hd'
    obtain ⟨r₀, h₀, hmem, _, _⟩ := serializeAssocsF_cons_ok fuel env inst key assoc rest depth r r' h
    rcases ih r₀ h₀ with hr | hk
    · rcases hmem k v hr with hr' | hk'
      · exact Or.inl hr'
      · exact Or.inr (by simp [hk'])
    · exact Or.inr (by simp [hk])

theorem serializeAssocsF_preserve (fuel : Nat) (env : Env) (inst : Value)
    (assocs : List (String × Association)) (depth : Int) (r r' : Obj)
    (h : serializeAssocsF fuel env inst assocs depth r = .ok r')
    (k : String) (hk : k ∉ assocs.map Prod.fst) :
    lookupKey r' k = lookupKey r k := by
  induction assocs generalizing r with
  | nil =>
    simp only [serializeAssocsF] at h
    cases h
    rfl
  | cons hd' rest ih =>
    obtain ⟨key, assoc⟩ := hd'
    obtain ⟨r₀, h₀, _, hpres, _⟩ := serializeAssocsF_cons_ok fuel env inst key assoc rest depth r r' h
    have hkey : k ≠ key := by
      intro hkk
      exact hk (by simp [hkk])
    have hrest : k ∉ rest.map Prod.fst := by
      intro hm
      exact hk (by simp [hm])
    rw [ih r₀ h₀ hrest, hpres k hkey]

theorem serializeAssocsF_many_fallback (fuel : Nat) (env : Env) (inst : Value)
    (assocs : List (String × Association)) (depth : Int) (r r' : Obj)
    (key : String) (assoc : Association)
    (hnodup : (assocs.map Prod.fst).Nodup)
    (hmem : (key, assoc) ∈ assocs)
    (hmany : assoc.kind.isMany = true)
    (hnil : (getProp inst key).isNil = false)
    (harr : (getProp inst key).isArray = false)
    (hg : 0 ≤ depth - 1)
    (h : serializeAssocsF fuel env inst assocs depth r = .ok r') :
    lookupKey r' key = some (.varr []) := by
  induction assocs generalizing r with
  | nil => cases hmem
  | cons hd' rest ih =>
    obtain ⟨key', assoc'⟩ := hd'
    obtain ⟨r₀, h₀, _, hpres, hfall⟩ :=
      serializeAssocsF_cons_ok fuel env inst key' assoc' rest depth r r' h
    rcases List.mem_cons.mp hmem with heq | htl
    · cases heq
      have hout : key ∉ rest.map Prod.fst := by
        have := hnodup
        simp only [List.map_cons, List.nodup_cons] at this
        exact this.1
      rw [serializeAssocsF_preserve fuel env inst rest depth r₀ r' h₀ key hout]
      exact hfall hmany hnil harr hg
    · have hnodup' : (rest.map Prod.fst).Nodup := by
        simp only [List.map_cons, List.nodup_cons] at hnodup
        exact hnodup.2
      exact ih r₀ hnodup' htl h₀

theorem serializeAssocsF_head_unresolved (fuel : Nat) (env : Env) (inst : Value)
    (key : String) (assoc : Association) (rest : List (String × Association))
    (depth : Int) (r : Obj)
    (hnil : (getProp inst key).isNil = false)
    (hres : resolveTarget env assoc.target = none) :
    serializeAssocsF fuel env inst ((key, assoc) :: rest) depth r =
      .error (.defError ("Cannot serialize because association " ++ key ++ " is not defined")) := by
  simp only [serializeAssocsF, hnil, if_false, hres, Bool.false_eq_true]

theorem serializeAssocsF_nil (fuel : Nat) (env : Env) (inst : Value) (depth : Int) (r : Obj) :
    serializeAssocsF fuel env inst [] depth r = .ok r := by
  simp only [serializeAssocsF]

/-! ### Lemmas about the deserialization association loop -/

theorem deserializeF_succ (fuel : Nat) (env : Env) (m : ModelType) (data : Value)
    (validateFlag assocFlag : Bool) (depth : Int) :
    deserializeF (fuel + 1) env m data validateFlag assocFlag depth =
      (let dataObj := if data.isPlainObject then data.objFields else toPlainObject data
       let instance0 := pickObj dataObj (m.attrs.map Prod.fst)
       let instance1 := dateCoerce m.attrs instance0
       match (if assocFlag then
               deserializeAssocsF fuel env dataObj m.assocs validateFlag depth instance1
              else .ok instance1) with
       | .error e => .error e
       | .ok inst =>
         if validateFlag then
           match validateModel m (.vobj inst) true with
           | some e => .error e
           | none => .ok (.vobj inst)
         else .ok (.vobj inst)) := by
  simp only [deserializeF]

theorem deserializeModel_def (env : Env) (m : ModelType) (data : Value)
    (validateFlag assocFlag : Bool) (depth : Int) :
    deserializeModel env m data validateFlag assocFlag depth =
      (let dataObj := if data.isPlainObject then data.objFields else toPlainObject data
       let instance0 := pickObj dataObj (m.attrs.map Prod.fst)
       let instance1 := dateCoerce m.attrs instance0
       match (if assocFlag then
               deserializeAssocsF ((depth + 1).toNat) env dataObj m.assocs validateFlag depth
                 instance1
              else .ok instance1) with
       | .error e => .error e
       | .ok inst =>
         if validateFlag then
           match validateModel m (.vobj inst) true with
           | some e => .error e
           | none => .ok (.vobj inst)
         else .ok (.vobj inst)) := by
  simp only [deserializeModel, deserializeF_succ]

theorem deserializeAssocsF_cons_ok (fuel : Nat) (env : Env) (dataObj : Obj)
    (key : String) (assoc : Association) (rest : List (String × Association))
    (validateFlag : Bool) (depth : Int) (inst inst' : Obj)
    (h : deserializeAssocsF fuel env dataObj ((key, assoc) :: rest) validateFlag depth inst =
      .ok inst') :
    ∃ i₀, deserializeAssocsF fuel env dataObj rest validateFlag depth i₀ = .ok inst' ∧
      (∀ k v, (k, v) ∈ i₀ → (k, v) ∈ inst ∨ k = key) ∧
      (∀ k, k ≠ key → lookupKey i₀ k = lookupKey inst k) ∧
      (assoc.kind.isMany = true → (getPropObj dataObj key).isNil = false →
        (getPropObj dataObj key).isArray = false → 0 ≤ depth - 1 →
        lookupKey i₀ key = some (.varr [])) := by
  simp only [deserializeAssocsF] at h
  by_cases hnil : (getPropObj dataObj key).isNil
  · simp only [hnil, if_true] at h
    refine ⟨inst, h, fun k v hm => Or.inl hm, fun k _ => rfl, ?_⟩
    intro _ hn _ _
    rw [hnil] at hn
    cases hn
  · simp only [hnil, if_false] at h
    cases hres : resolveTarget env assoc.target with
    | none => rw [hres] at h; cases h
    | some target =>
      rw [hres] at h
      by_cases hg : (0 ≤ depth - 1)
      · simp only [hg, if_true] at h
        by_cases hmany : assoc.kind.isMany
        · simp only [hmany, if_true] at h
          cases hval : getPropObj dataObj key with
          | vnil => rw [hval] at hnil; simp [Value.isNil] at hnil
          | varr items =>
            simp only [hval] at h
            cases hlist : deserializeListF fuel env target items validateFlag depth with
            | ok ds =>
              simp only [hlist] at h
              refine ⟨setProp inst key (.varr ds), h,
                fun k v hm => mem_setProp _ _ _ _ _ hm,
                fun k hk => lookupKey_setProp_other _ _ _ _ hk, ?_⟩
              intro _ _ ha _
              simp [Value.isArray] at ha
            | error e => simp only [hlist] at h; cases h
          | vbool b =>
            simp only [hval] at h
            exact ⟨setProp inst key (.varr []), h,
              fun k v hm => mem_setProp _ _ _ _ _ hm,
              fun k hk => lookupKey_setProp_other _ _ _ _ hk,
              fun _ _ _ _ => lookupKey_setProp_self _ _ _⟩
          | vnum n =>
            simp only [hval] at h
            exact ⟨setProp inst key (.varr []), h,
              fun k v hm => mem_setProp _ _ _ _ _ hm,
              fun k hk => lookupKey_setProp_other _ _ _ _ hk,
              fun _ _ _ _ => lookupKey_setProp_self _ _ _⟩
          | vstr s =>
            simp only [hval] at h
            exact ⟨setProp inst key (.varr []), h,
              fun k v hm => mem_setProp _ _ _ _ _ hm,
              fun k hk => lookupKey_setProp_other _ _ _ _ hk,
              fun _ _ _ _ => lookupKey_setProp_self _ _ _⟩
          | vdate t =>
            simp only [hval] at h
            exact ⟨setProp inst key (.varr []), h,
              fun k v hm => mem_setProp _ _ _ _ _ hm,
              fun k hk => lookupKey_setProp_other _ _ _ _ hk,
              fun _ _ _ _ => lookupKey_setProp_self _ _ _⟩
          | vobj fields =>
            simp only [hval] at h
            exact ⟨setProp inst key (.varr []), h,
              fun k v hm => mem_setProp _ _ _ _ _ hm,
              fun k hk => lookupKey_setProp_other _ _ _ _ hk,
              fun _ _ _ _ => lookupKey_setProp_self _ _ _⟩
        · simp only [hmany, if_false] at h
          cases hdes : deserializeF fuel env target (getPropObj dataObj key) validateFlag true
              (depth - 1) with
          | ok d =>
            simp only [hdes] at h
            refine ⟨setProp inst key d, h,
              fun k v hm => mem_setProp _ _ _ _ _ hm,
              fun k hk => lookupKey_setProp_other _ _ _ _ hk, ?_⟩
            intro hm _ _ _
            exact absurd hm hmany
          | error e => simp only [hdes] at h; cases h
      · simp only [hg, if_false] at h
        refine ⟨inst, h, fun k v hm => Or.inl hm, fun k _ => rfl, ?_⟩
        intro _ _ _ hdg
        cases hg hdg

theorem deserializeAssocsF_preserve (fuel : Nat) (env : Env) (dataObj : Obj)
    (assocs : List (String × Association)) (validateFlag : Bool) (depth : Int)
    (inst inst' : Obj)
    (h : deserializeAssocsF fuel env dataObj assocs validateFlag depth inst = .ok inst')
    (k : String) (hk : k ∉ assocs.map Prod.fst) :
    lookupKey inst' k = lookupKey inst k := by
  induction assocs generalizing inst with
  | nil =>
    simp only [deserializeAssocsF] at h
    cases h
    rfl
  | cons hd' rest ih =>
    obtain ⟨key, assoc⟩ := hd'
    obtain ⟨i₀, h₀, _, hpres, _⟩ :=
      deserializeAssocsF_cons_ok fuel env dataObj key assoc rest validateFlag depth inst inst' h
    have hkey : k ≠ key := by
      intro hkk
      exact hk (by simp [hkk])
    have hrest : k ∉ rest.map Prod.fst := by
      intro hm
      exact hk (by simp [hm])
    rw [ih i₀ h₀ hrest, hpres k hkey]

theorem deserializeAssocsF_many_fallback (fuel : Nat) (env : Env) (dataObj : Obj)
    (assocs : List (String × Association)) (validateFlag : Bool) (depth : Int)
    (inst inst' : Obj) (key : String) (assoc : Association)
    (hnodup : (assocs.map Prod.fst).Nodup)
    (hmem : (key, assoc) ∈ assocs)
    (hmany : assoc.kind.isMany = true)
    (hnil : (getPropObj dataObj key).isNil = false)
    (harr : (getPropObj dataObj key).isArray = false)
    (hg : 0 ≤ depth - 1)
    (h : deserializeAssocsF fuel env dataObj assocs validateFlag depth inst = .ok inst') :
    lookupKey inst' key = some (.varr []) := by
  induction assocs generalizing inst with
  | nil => cases hmem
  | cons hd' rest ih =>
    obtain ⟨key', assoc'⟩ := hd'
    obtain ⟨i₀, h₀, _, hpres, hfall⟩ :=
      deserializeAssocsF_cons_ok fuel env dataObj key' assoc' rest validateFlag depth inst inst' h
    rcases List.mem_cons.mp hmem with heq | htl
    · cases heq
      have hout : key ∉ rest.map Prod.fst := by
        simp only [List.map_cons, List.nodup_cons] at hnodup
        exact hnodup.1
      rw [deserializeAssocsF_preserve fuel env dataObj rest validateFlag depth i₀ inst' h₀ key hout]
      exact hfall hmany hnil harr hg
    · have hnodup' : (rest.map Prod.fst).Nodup := by
        simp only [List.map_cons, List.nodup_cons] at hnodup
        exact hnodup.2
      exact ih i₀ hnodup' htl h₀

theorem deserializeAssocsF_head_unresolved (fuel : Nat) (env : Env) (dataObj : Obj)
    (key : String) (assoc : Association) (rest : List (String × Association))
    (validateFlag : Bool) (depth : Int) (inst : Obj)
    (hnil : (getPropObj dataObj key).isNil = false)
    (hres : resolveTarget env assoc.target = none) :
    deserializeAssocsF fuel env dataObj ((key, assoc) :: rest) validateFlag depth inst =
      .error (.defError ("Cannot deserialize because association " ++ key ++ " is not defined")) := by
  simp only [deserializeAssocsF, hnil, if_false, hres, Bool.false_eq_true]

theorem deserializeAssocsF_nil (fuel : Nat) (env : Env) (dataObj : Obj)
    (validateFlag : Bool) (depth : Int) (inst : Obj) :
    deserializeAssocsF fuel env dataObj [] validateFlag depth inst = .ok inst := by
  simp only [deserializeAssocsF]

/-! ### Support lemmas for the round-trip property -/

theorem dateCoerce_id (attrs : List (String × Attribute)) (inst : Obj)
    (h : ∀ k attr, (k, attr) ∈ attrs → attr.typeTag = DATEtype →
      ∀ s, lookupKey inst k ≠ some (.vstr s)) :
    dateCoerce attrs inst = inst := by
  induction attrs with
  | nil => rfl
  | cons hd tl ih =>
    obtain ⟨key, attr⟩ := hd
    have hstep : (if attr.typeTag = DATEtype then
        match lookupKey inst key with
        | some (.vstr s) => setProp inst key (.vdate (jsDateParse s))
        | _ => inst
      else inst) = inst := by
      by_cases htag : attr.typeTag = DATEtype
      · simp only [htag, if_true]
        cases hv : lookupKey inst key with
        | none => rfl
        | some v =>
          cases v with
          | vstr s => exact absurd hv (h key attr (by simp) htag s)
          | vnil => rfl
          | vbool b => rfl
          | vnum n => rfl
          | vdate t => rfl
          | varr xs => rfl
          | vobj fs => rfl
      · simp only [htag, if_false]
    show dateCoerce tl _ = inst
    rw [hstep]
    exact ih (fun k a hm ht s => h k a (List.mem_cons_of_mem _ hm) ht s)

theorem pickObj_of_subset (obj : Obj) (keys keys' : List String)
    (hsub : ∀ k, k ∈ keys' → k ∈ keys) :
    pickObj (pickObj obj keys) keys' = pickObj obj keys' := by
  show keys'.filterMap (fun k => (lookupKey (pickObj obj keys) k).map (fun v => (k, v)))
      = keys'.filterMap (fun k => (lookupKey obj k).map (fun v => (k, v)))
  refine List.filterMap_congr ?_
  intro k hk
  rw [lookupKey_pickObj, if_pos (hsub k hk)]

theorem validateAttr_pass_type (required : Bool) (k : String) (attr : Attribute)
    (rules : List ValidationRule) (value : Value)
    (f : String → Value → Option ThrownError)
    (hf : attr.validate = some f)
    (hnil : value.isNil = false)
    (hpass : validateAttr required k attr rules value = []) :
    f k value = none := by
  simp only [validateAttr, hnil, hf, Bool.false_and, Bool.false_eq_true, if_false,
    List.nil_append] at hpass
  cases hft : f k value with
  | none => rfl
  | some e =>
    rw [hft] at hpass
    simp at hpass

/-! ### Helper lemmas for per-attribute validation membership -/

theorem runRules_mem (rules : List ValidationRule) (k : String) (v : Value)
    (r : ValidationRule) (e : ThrownError)
    (hr : r ∈ rules) (hcb : r.cb k v r.options = some e) :
    coerceError e ∈ runRules rules k v := by
  simp only [runRules, List.mem_filterMap]
  exact ⟨r, hr, by rw [hcb]; rfl⟩

theorem requiredError_mem_validateAttr (k : String) (attr : Attribute)
    (rules : List ValidationRule) (v : Value)
    (hnil : v.isNil = true) (hopt : attr.optional = false) :
    requiredError ∈ validateAttr true k attr rules v := by
  simp only [validateAttr, hnil, hopt, Bool.not_true, Bool.or_false, Bool.true_and,
    Bool.false_eq_true, if_false, if_true]
  cases attr.validate with
  | none => simp
  | some f => simp

theorem requiredError_mem_validateAttr0 (k : String) (attr : Attribute)
    (rules : List ValidationRule) (v : Value)
    (hnil : v.isNil = true) (hopt : attr.optional = false) :
    requiredError ∈ validateAttr0 k attr rules v := by
  simp only [validateAttr0, hnil, hopt, Bool.and_false, Bool.false_eq_true, if_false, if_true]
  simp

theorem typeError_mem_validateAttr (k : String) (attr : Attribute)
    (rules : List ValidationRule) (v : Value) (f : String → Value → Option ThrownError)
    (e : ThrownError)
    (hnil : v.isNil = true) (hopt : attr.optional = false)
    (hf : attr.validate = some f)
    (hfe : f k (if v.isNil && truthyDefault attr.defaultValue then
        resolveDefault attr.defaultValue else v) = some e) :
    coerceError e ∈ validateAttr true k attr rules v := by
  simp only [hnil, Bool.true_and] at hfe
  simp only [validateAttr, hnil, hopt, Bool.not_true, Bool.or_false, Bool.true_and,
    Bool.false_eq_true, if_false, hf]
  rw [hfe]
  simp

theorem ruleError_mem_validateAttr (k : String) (attr : Attribute)
    (rules : List ValidationRule) (v : Value) (f : String → Value → Option ThrownError)
    (r : ValidationRule) (e : ThrownError)
    (hnil : v.isNil = true) (hopt : attr.optional = false)
    (hf : attr.validate = some f) (hr : r ∈ rules)
    (hcb : r.cb k (if v.isNil && truthyDefault attr.defaultValue then
        resolveDefault attr.defaultValue else v) r.options = some e) :
    coerceError e ∈ validateAttr true k attr rules v := by
  simp only [hnil, Bool.true_and] at hcb
  simp only [validateAttr, hnil, hopt, Bool.not_true, Bool.or_false, Bool.true_and,
    Bool.false_eq_true, if_false, hf]
  have := runRules_mem rules k
    (if truthyDefault attr.defaultValue then resolveDefault attr.defaultValue else v)
    r e hr hcb
  simp [this]

theorem typeError_mem_validateAttr0 (k : String) (attr : Attribute)
    (rules : List ValidationRule) (v : Value) (f : String → Value → Option ThrownError)
    (e : ThrownError)
    (hnil : v.isNil = true) (hopt : attr.optional = false)
    (hf : attr.validate = some f) (hfe : f k v = some e) :
    coerceError e ∈ validateAttr0 k attr rules v := by
  simp only [validateAttr0, hnil, hopt, Bool.and_false, Bool.false_eq_true, if_false, hf]
  rw [hfe]
  simp

theorem ruleError_mem_validateAttr0 (k : String) (attr : Attribute)
    (rules : List ValidationRule) (v : Value) (r : ValidationRule) (e : ThrownError)
    (hnil : v.isNil = true) (hopt : attr.optional = false)
    (hr : r ∈ rules) (hcb : r.cb k v r.options = some e) :
    coerceError e ∈ validateAttr0 k attr rules v := by
  simp only [validateAttr0, hnil, hopt, Bool.and_false, Bool.false_eq_true, if_false]
  have := runRules_mem rules k v r e hr hcb
  simp [this]

/-! ### Claim C2 -/

/-- An attribute type validator that fails on every input. -/
def c2validator : String → Value → Option ThrownError :=
  fun _ _ => some (.property "type.fail" "boom")

/-- A non-optional, default-less attribute whose type always fails
validation. -/
def c2attr : Attribute := ⟨"string", some c2validator, none, false⟩

/-- A model with the single attribute `a`. -/
def c2model : ModelType := ⟨[("a", c2attr)], [], fun _ => []⟩

/-- Claim C2 counterexample: the claim asserts that `options.required =
false` still runs the attribute's type validation with the nil value.  The
attribute `a` of `c2model` is non-optional and default-less, and its type
validator fails on every input — so under the claim, validating an
instance with no value for `a` and `required = false` would have to
produce a report with a `type.fail` entry under `a`.  The code instead
skips nil-valued attributes entirely when `required` is off: validation
succeeds. -/
theorem c2_counterexample :
    (∀ k v, c2validator k v = some (.property "type.fail" "boom")) ∧
    c2model.attrs = [("a", c2attr)] ∧ c2attr.optional = false ∧ c2attr.defaultValue = none ∧
    validateModel c2model (.vobj []) false = none :=
  ⟨fun _ _ => rfl, rfl, rfl, rfl, rfl⟩

/-- Claim C2 (amended): an instance with a nil value on a non-optional,
default-less attribute fails `validate()` with default options with an
`attribute.required` entry under that attribute's key; and with
`options.required = false` a nil-valued attribute is skipped entirely —
no required, type, or custom validation runs for it (its per-attribute
error list is empty, exactly as for an optional attribute). -/
theorem c2_required_flag :
    (∀ (m : ModelType) (inst : Value) (k : String) (attr : Attribute),
      (k, attr) ∈ m.attrs → attr.optional = false → attr.defaultValue = none →
      (getProp inst k).isNil = true →
      ∃ report l, validateModel m inst true = some (.validationError report) ∧
        lookupKey report k = some l ∧ requiredError ∈ l) ∧
    (∀ (k : String) (attr : Attribute) (rules : List ValidationRule) (v : Value),
      v.isNil = true → validateAttr false k attr rules v = []) := by
  constructor
  · intro m inst k attr hmem hopt _ hnil
    exact validateModel_report_of_mem m inst true k attr requiredError hmem
      (requiredError_mem_validateAttr k attr (m.validations k) (getProp inst k) hnil hopt)
  · intro k attr rules v hnil
    simp [validateAttr, hnil]

/-- A non-optional, default-less attribute with no type validator, used to
witness claim C2. -/
def c2wattr : Attribute := ⟨"string", none, none, false⟩

/-- A model with the single attribute `b`, used to witness claim C2. -/
def c2wmodel : ModelType := ⟨[("b", c2wattr)], [], fun _ => []⟩

/-- Claim C2 witness: the amended claim instantiated on `c2wmodel` and an
empty instance. -/
theorem c2_witness :
    (∃ report l, validateModel c2wmodel (.vobj []) true = some (.validationError report) ∧
      lookupKey report "b" = some l ∧ requiredError ∈ l) ∧
    validateAttr false "b" c2wattr [] .vnil = [] :=
  ⟨c2_required_flag.1 c2wmodel (.vobj []) "b" c2wattr (List.Mem.head _) rfl rfl rfl,
   c2_required_flag.2 "b" c2wattr [] .vnil rfl⟩

/-! ### Claim C4 -/

/-- Claim C4: a single `validate()` call processes every registered
attribute before raising: if two distinct attributes independently
accumulate validation errors, the thrown `ValidationError`'s report
contains non-empty entries under both keys, in one call — in both the
association-aware variant and the base no-associations variant of the
model class.  (The report is only ever thrown after the full attribute
loop, so it is never partial.) -/
theorem c4_comprehensive_reporting :
    (∀ (m : ModelType) (inst : Value) (k1 k2 : String) (a1 a2 : Attribute),
      (k1, a1) ∈ m.attrs → (k2, a2) ∈ m.attrs →
      validateAttr true k1 a1 (m.validations k1) (getProp inst k1) ≠ [] →
      validateAttr true k2 a2 (m.validations k2) (getProp inst k2) ≠ [] →
      ∃ report, validateModel m inst true = some (.validationError report) ∧
        (∃ l1, lookupKey report k1 = some l1 ∧ l1 ≠ []) ∧
        (∃ l2, lookupKey report k2 = some l2 ∧ l2 ≠ [])) ∧
    (∀ (m : ModelType) (inst : Value) (k1 k2 : String) (a1 a2 : Attribute),
      (k1, a1) ∈ m.attrs → (k2, a2) ∈ m.attrs →
      validateAttr0 k1 a1 (m.validations k1) (getProp inst k1) ≠ [] →
      validateAttr0 k2 a2 (m.validations k2) (getProp inst k2) ≠ [] →
      ∃ report, validateModel0 m inst = some (.validationError report) ∧
        (∃ l1, lookupKey report k1 = some l1 ∧ l1 ≠ []) ∧
        (∃ l2, lookupKey report k2 = some l2 ∧ l2 ≠ [])) := by
  constructor
  · intro m inst k1 k2 a1 a2 hm1 hm2 hne1 hne2
    obtain ⟨e1, he1⟩ := List.exists_mem_of_ne_nil _ hne1
    obtain ⟨e2, he2⟩ := List.exists_mem_of_ne_nil _ hne2
    obtain ⟨report, l1, hrep, hl1, hel1⟩ :=
      validateModel_report_of_mem m inst true k1 a1 e1 hm1 he1
    obtain ⟨report', l2, hrep', hl2, hel2⟩ :=
      validateModel_report_of_mem m inst true k2 a2 e2 hm2 he2
    rw [hrep] at hrep'
    have heq : report = report' := by
      injection hrep' with h'
      injection h'
    subst heq
    exact ⟨report, hrep,
      ⟨l1, hl1, List.ne_nil_of_mem hel1⟩, ⟨l2, hl2, List.ne_nil_of_mem hel2⟩⟩
  · intro m inst k1 k2 a1 a2 hm1 hm2 hne1 hne2
    obtain ⟨e1, he1⟩ := List.exists_mem_of_ne_nil _ hne1
    obtain ⟨e2, he2⟩ := List.exists_mem_of_ne_nil _ hne2
    obtain ⟨report, l1, hrep, hl1, hel1⟩ :=
      validateModel0_report_of_mem m inst k1 a1 e1 hm1 he1
    obtain ⟨report', l2, hrep', hl2, hel2⟩ :=
      validateModel0_report_of_mem m inst k2 a2 e2 hm2 he2
    rw [hrep] at hrep'
    have heq : report = report' := by
      injection hrep' with h'
      injection h'
    subst heq
    exact ⟨report, hrep,
      ⟨l1, hl1, List.ne_nil_of_mem hel1⟩, ⟨l2, hl2, List.ne_nil_of_mem hel2⟩⟩

/-- A non-optional, default-less attribute used by the C4 witness: a
missing value makes it invalid. -/
def c4attr : Attribute := ⟨"string", none, none, false⟩

/-- A model with two independently invalid attributes `p` and `q` on an
empty instance, used by the C4 witness. -/
def c4model : ModelType := ⟨[("p", c4attr), ("q", c4attr)], [], fun _ => []⟩

/-- Claim C4 witness: both parts of the claim instantiated on `c4model`
and an empty instance (both attributes are nil, hence invalid). -/
theorem c4_witness :
    (∃ report, validateModel c4model (.vobj []) true = some (.validationError report) ∧
      (∃ l1, lookupKey report "p" = some l1 ∧ l1 ≠ []) ∧
      (∃ l2, lookupKey report "q" = some l2 ∧ l2 ≠ [])) ∧
    (∃ report, validateModel0 c4model (.vobj []) = some (.validationError report) ∧
      (∃ l1, lookupKey report "p" = some l1 ∧ l1 ≠ []) ∧
      (∃ l2, lookupKey report "q" = some l2 ∧ l2 ≠ [])) :=
  ⟨c4_comprehensive_reporting.1 c4model (.vobj []) "p" "q" c4attr c4attr
      (List.Mem.head _) (List.Mem.tail _ (List.Mem.head _)) (by decide) (by decide),
   c4_comprehensive_reporting.2 c4model (.vobj []) "p" "q" c4attr c4attr
      (List.Mem.head _) (List.Mem.tail _ (List.Mem.head _)) (by decide) (by decide)⟩

/-! ### Claim C6 -/

/-- Claim C6: with required checks enabled, a nil value on a non-optional
attribute records the `attribute.required` error and validation still
proceeds to the attribute's type validation and custom validation rules
(no short-circuit after the required error): any type-validator failure
and any failing custom rule also land in the attribute's error list.  This
holds in the association-aware variant (where the type validator and the
rules see the default-substituted value when a truthy default exists) and
in the base no-associations variant (where they see the nil value
itself). -/
theorem c6_no_short_circuit :
    ∀ (k : String) (attr : Attribute) (rules : List ValidationRule) (v : Value),
      v.isNil = true → attr.optional = false →
      (requiredError ∈ validateAttr true k attr rules v) ∧
      (∀ f e, attr.validate = some f →
        f k (if v.isNil && truthyDefault attr.defaultValue then
          resolveDefault attr.defaultValue else v) = some e →
        coerceError e ∈ validateAttr true k attr rules v) ∧
      (∀ f r e, attr.validate = some f → r ∈ rules →
        r.cb k (if v.isNil && truthyDefault attr.defaultValue then
          resolveDefault attr.defaultValue else v) r.options = some e →
        coerceError e ∈ validateAttr true k attr rules v) ∧
      (requiredError ∈ validateAttr0 k attr rules v) ∧
      (∀ f e, attr.validate = some f → f k v = some e →
        coerceError e ∈ validateAttr0 k attr rules v) ∧
      (∀ r e, r ∈ rules → r.cb k v r.options = some e →
        coerceError e ∈ validateAttr0 k attr rules v) := by
  intro k attr rules v hnil hopt
  refine ⟨requiredError_mem_validateAttr k attr rules v hnil hopt,
    fun f e hf hfe => typeError_mem_validateAttr k attr rules v f e hnil hopt hf hfe,
    fun f r e hf hr hcb => ruleError_mem_validateAttr k attr rules v f r e hnil hopt hf hr hcb,
    requiredError_mem_validateAttr0 k attr rules v hnil hopt,
    fun f e hf hfe => typeError_mem_validateAttr0 k attr rules v f e hnil hopt hf hfe,
    fun r e hr hcb => ruleError_mem_validateAttr0 k attr rules v r e hnil hopt hr hcb⟩

/-- A type validator that always fails with a plain (non property) error,
used by the C6 witness. -/
def c6validator : String → Value → Option ThrownError := fun _ _ => some (.other "bad type")

/-- A custom validation rule that always fails, used by the C6 witness. -/
def c6rule : ValidationRule := ⟨fun _ _ _ => some (.property "rule.fail" "bad rule"), .vnil⟩

/-- A non-optional attribute with a failing validator and no default, used
by the C6 witness. -/
def c6attr : Attribute := ⟨"string", some c6validator, none, false⟩

/-- Claim C6 witness: on a nil value of the non-optional `c6attr`, the
required error, the coerced type-validator error and the coerced custom
rule error all appear in the per-attribute error list, in both variants. -/
theorem c6_witness :
    (requiredError ∈ validateAttr true "a" c6attr [c6rule] .vnil) ∧
    (coerceError (.other "bad type") ∈ validateAttr true "a" c6attr [c6rule] .vnil) ∧
    (coerceError (.property "rule.fail" "bad rule") ∈ validateAttr true "a" c6attr [c6rule] .vnil) ∧
    (requiredError ∈ validateAttr0 "a" c6attr [c6rule] .vnil) ∧
    (coerceError (.other "bad type") ∈ validateAttr0 "a" c6attr [c6rule] .vnil) ∧
    (coerceError (.property "rule.fail" "bad rule") ∈ validateAttr0 "a" c6attr [c6rule] .vnil) :=
  ⟨(c6_no_short_circuit "a" c6attr [c6rule] .vnil rfl rfl).1,
   (c6_no_short_circuit "a" c6attr [c6rule] .vnil rfl rfl).2.1 c6validator (.other "bad type")
     rfl rfl,
   (c6_no_short_circuit "a" c6attr [c6rule] .vnil rfl rfl).2.2.1 c6validator c6rule
     (.property "rule.fail" "bad rule") rfl (List.Mem.head _) rfl,
   (c6_no_short_circuit "a" c6attr [c6rule] .vnil rfl rfl).2.2.2.1,
   (c6_no_short_circuit "a" c6attr [c6rule] .vnil rfl rfl).2.2.2.2.1 c6validator
     (.other "bad type") rfl rfl,
   (c6_no_short_circuit "a" c6attr [c6rule] .vnil rfl rfl).2.2.2.2.2 c6rule
     (.property "rule.fail" "bad rule") (List.Mem.head _) rfl⟩

/-! ### Claim C7 -/

/-- A type validator that fails exactly when it receives a nil value, so
its outcome reveals which value the engine passed it. -/
def c7validator : String → Value → Option ThrownError :=
  fun _ v => if v.isNil then some (.property "got.nil" "validator saw nil") else none

/-- A non-optional boolean attribute with the concrete (falsy) default
`false` and the nil-detecting validator. -/
def c7attr : Attribute := ⟨"boolean", some c7validator, some (.direct (.vbool false)), false⟩

/-- A model with the single attribute `flag`, used by the C7
counterexample. -/
def c7model : ModelType := ⟨[("flag", c7attr)], [], fun _ => []⟩

/-- Claim C7 counterexample: `flag` has the defined default value `false`
and its validator succeeds on `false` but fails on nil.  Under the claim,
validating an instance with no value for `flag` would invoke the
validator with the default's concrete value `false`, so no `got.nil`
entry could appear.  The code instead guards the substitution with
JavaScript truthiness of `attr.defaultValue`; `false` is falsy, so the
validator receives the nil value and the `got.nil` error is reported. -/
theorem c7_counterexample :
    c7attr.defaultValue = some (.direct (.vbool false)) ∧
    c7validator "flag" (.vbool false) = none ∧
    validateModel c7model (.vobj []) true =
      some (.validationError
        [("flag", [requiredError, ⟨"got.nil", "validator saw nil"⟩])]) :=
  ⟨rfl, rfl, rfl⟩

/-- Claim C7 (amended): for an attribute whose type exposes a validate
capability, if the instance's value is nil, the attribute is not skipped
(it is non-optional and required checks are on), and its default value is
JavaScript-truthy — in particular any lazy default — with the default
resolving to a non-nil concrete value, then validation behaves exactly as
if the instance held the default's concrete value (lazy defaults
resolved): the error list is the `attribute.required` error followed by
precisely the type-validation and custom-rule errors produced at the
substituted default value.  (A falsy concrete default such as `false`,
`0` or `""` is not substituted.) -/
theorem c7_truthy_default_substitution (k : String) (attr : Attribute)
    (rules : List ValidationRule) (v : Value) (f : String → Value → Option ThrownError)
    (hf : attr.validate = some f)
    (hnil : v.isNil = true)
    (hopt : attr.optional = false)
    (htruthy : truthyDefault attr.defaultValue = true)
    (hdnn : (resolveDefault attr.defaultValue).isNil = false) :
    validateAttr true k attr rules v =
      requiredError :: validateAttr true k attr rules (resolveDefault attr.defaultValue) := by
  simp only [validateAttr, hnil, hopt, htruthy, hdnn, hf, Bool.not_true, Bool.or_false,
    Bool.true_and, Bool.and_true, Bool.false_eq_true, Bool.false_and, if_false, if_true]
  simp

/-- A non-optional attribute with a lazy default resolving to `false` and
the nil-detecting validator, used by the C7 witness (a resolver function
is always truthy, so substitution applies). -/
def c7wattr : Attribute :=
  ⟨"boolean", some c7validator, some (.lazyLoad (fun _ => .vbool false)), false⟩

/-- Claim C7 witness: the amended claim instantiated on `c7wattr` with a
nil instance value — validation equals the required error followed by the
outcome at the resolved default `false`. -/
theorem c7_witness :
    validateAttr true "flag" c7wattr [] .vnil =
      requiredError :: validateAttr true "flag" c7wattr [] (resolveDefault c7wattr.defaultValue) :=
  c7_truthy_default_substitution "flag" c7wattr [] .vnil c7validator rfl rfl rfl rfl rfl

/-! ### Claim C1 -/

/-- Claim C1 (amended): whenever `serialize` with `associations` enabled
and `depth = 0` succeeds, the output is exactly the instance's plain
attributes (the instance projected to a plain object and restricted to
the registered attribute keys); no association key is populated at all —
the association loop runs, but `assocOptions.depth = -1` fails the
`>= 0` guard before any expansion.  First-level-expanded /
second-level-absent is the behaviour of the default `depth = 1`, not of
`depth = 0`. -/
theorem c1_depth_zero_plain (env : Env) (m : ModelType) (inst : Value) (v : Value)
    (h : serializeModel env m inst true 0 = .ok v) :
    v = .vobj (pickObj (toPlainObject inst) (m.attrs.map Prod.fst)) := by
  rw [serializeModel_def] at h
  simp only [if_true] at h
  cases hres : serializeAssocsF ((0 + 1 : Int).toNat) env inst m.assocs 0
      (pickObj (toPlainObject inst) (m.attrs.map Prod.fst)) with
  | error e => rw [hres] at h; cases h
  | ok r =>
    rw [hres] at h
    cases h
    rw [serializeAssocsF_ok_of_nonpos ((0 + 1 : Int).toNat) env inst m.assocs 0 _ r
      (by omega) hres]

/-- An attribute shared by the C1 example models. -/
def c1attr : Attribute := ⟨"int", none, none, false⟩

/-- The deepest C1 example model, with only the attribute `z`. -/
def c1modelC : ModelType := ⟨[("z", c1attr)], [], fun _ => []⟩

/-- The middle C1 example model: attribute `y` and a to-one association
`grand` targeting `c1modelC`. -/
def c1modelB : ModelType := ⟨[("y", c1attr)], [("grand", ⟨.belongsTo, .direct (some 2)⟩)], fun _ => []⟩

/-- The root C1 example model: attribute `x` and a to-one association
`child` targeting `c1modelB`. -/
def c1modelA : ModelType := ⟨[("x", c1attr)], [("child", ⟨.belongsTo, .direct (some 1)⟩)], fun _ => []⟩

/-- The environment of the three C1 example models. -/
def c1env : Env := [c1modelA, c1modelB, c1modelC]

/-- A root instance whose object graph nests two association levels:
`child` and, below it, `grand`. -/
def c1instA : Value :=
  .vobj [("x", .vnum 1),
         ("child", .vobj [("y", .vnum 2), ("grand", .vobj [("z", .vnum 3)])])]

/-- Claim C1 counterexample: `c1instA`'s graph has two association levels
(`child` is non-nil and its `grand` is non-nil), yet serializing with
`depth = 0` (associations enabled) yields only the plain attribute `x` —
the first-level association `child` is absent from the output,
contradicting the claim that `depth = 0` expands first-level
associations. -/
theorem c1_counterexample :
    getProp c1instA "child" ≠ .vnil ∧
    getProp (getProp c1instA "child") "grand" ≠ .vnil ∧
    serializeModel c1env c1modelA c1instA true 0 = .ok (.vobj [("x", .vnum 1)]) ∧
    getProp (.vobj [("x", .vnum 1)]) "child" = .vnil := by
  refine ⟨by simp [c1instA, getProp, getPropObj, lookupKey],
    by simp [c1instA, getProp, getPropObj, lookupKey],
    ?_, by simp [getProp, getPropObj, lookupKey]⟩
  simp [serializeModel, serializeF, serializeAssocsF, pickObj, toPlainObject, c1modelA,
    c1modelB, c1modelC, c1instA, c1attr, c1env, getProp, getPropObj, lookupKey, resolveTarget]

/-- Claim C1 witness: the amended claim instantiated on the concrete C1
models — the successful `depth = 0` serialization equals the plain
attribute projection. -/
theorem c1_witness :
    serializeModel c1env c1modelA c1instA true 0 =
      .ok (.vobj (pickObj (toPlainObject c1instA) (c1modelA.attrs.map Prod.fst))) := by
  have h : serializeModel c1env c1modelA c1instA true 0 = .ok (.vobj [("x", .vnum 1)]) := by
    simp [serializeModel, serializeF, serializeAssocsF, pickObj, toPlainObject, c1modelA,
      c1modelB, c1modelC, c1instA, c1attr, c1env, getProp, getPropObj, lookupKey, resolveTarget]
  exact h.trans (congrArg Except.ok (c1_depth_zero_plain c1env c1modelA c1instA _ h))

/-! ### Claim C8 -/

/-- Claim C8: the keys of a successful `serialize` output are always a
subset of the union of the model's registered attribute names and its
registered association names — any other field on the instance is
dropped by the `_.pick` projection, and the association loop only ever
writes association keys. -/
theorem c8_serialize_keys_subset (env : Env) (m : ModelType) (inst : Value)
    (assocFlag : Bool) (depth : Int) (out : Obj)
    (h : serializeModel env m inst assocFlag depth = .ok (.vobj out)) :
    ∀ k v, (k, v) ∈ out → k ∈ m.attrs.map Prod.fst ∨ k ∈ m.assocs.map Prod.fst := by
  rw [serializeModel_def] at h
  cases assocFlag with
  | false =>
    simp only [Bool.false_eq_true, if_false] at h
    cases h
    intro k v hm
    exact Or.inl (mem_pickObj _ _ _ _ hm)
  | true =>
    simp only [if_true] at h
    cases hres : serializeAssocsF ((depth + 1).toNat) env inst m.assocs depth
        (pickObj (toPlainObject inst) (m.attrs.map Prod.fst)) with
    | error e => rw [hres] at h; cases h
    | ok r =>
      rw [hres] at h
      cases h
      intro k v hm
      rcases serializeAssocsF_mem_keys _ _ _ _ _ _ _ hres k v hm with hp | ha
      · exact Or.inl (mem_pickObj _ _ _ _ hp)
      · exact Or.inr ha

/-- An instance of `c1modelA`'s shape carrying an extraneous `junk` field,
used by the C8 witness. -/
def c8inst : Value :=
  .vobj [("x", .vnum 1), ("junk", .vnum 99), ("child", .vobj [("y", .vnum 2)])]

/-- Claim C8 witness: the claim instantiated on a concrete serialization
whose input carries the extraneous field `junk` — every key of the output
is a registered attribute or association name (in particular `junk` is
gone: the output is exactly `x` and `child`). -/
theorem c8_witness :
    serializeModel c1env c1modelA c8inst true 1 =
      .ok (.vobj [("x", .vnum 1), ("child", .vobj [("y", .vnum 2)])]) ∧
    (∀ k v, (k, v) ∈ [("x", Value.vnum 1), ("child", Value.vobj [("y", Value.vnum 2)])] →
      k ∈ c1modelA.attrs.map Prod.fst ∨ k ∈ c1modelA.assocs.map Prod.fst) := by
  have h : serializeModel c1env c1modelA c8inst true 1 =
      .ok (.vobj [("x", .vnum 1), ("child", .vobj [("y", .vnum 2)])]) := by
    simp [serializeModel, serializeF, serializeAssocsF, serializeListF, pickObj, toPlainObject,
      c1modelA, c1modelB, c1modelC, c8inst, c1attr, c1env, getProp, getPropObj, lookupKey,
      resolveTarget, setProp, AssocKind.isMany, Value.isNil]
  exact ⟨h, c8_serialize_keys_subset c1env c1modelA c8inst true 1 _ h⟩

/-! ### Shared helpers for the unresolved-target claims -/

theorem serializeModel_head_unresolved (env : Env) (m : ModelType) (inst : Value)
    (key : String) (assoc : Association) (rest : List (String × Association)) (depth : Int)
    (hassocs : m.assocs = (key, assoc) :: rest)
    (hval : (getProp inst key).isNil = false)
    (hres : resolveTarget env assoc.target = none) :
    serializeModel env m inst true depth =
      .error (.defError ("Cannot serialize because association " ++ key ++ " is not defined")) := by
  rw [serializeModel_def]
  simp only [if_true, hassocs]
  rw [serializeAssocsF_head_unresolved ((depth + 1).toNat) env inst key assoc rest depth
    (pickObj (toPlainObject inst) (m.attrs.map Prod.fst)) hval hres]

theorem deserializeModel_head_unresolved (env : Env) (m : ModelType) (data : Value)
    (key : String) (assoc : Association) (rest : List (String × Association))
    (validateFlag : Bool) (depth : Int)
    (hassocs : m.assocs = (key, assoc) :: rest)
    (hplain : data.isPlainObject = true)
    (hval : (getPropObj data.objFields key).isNil = false)
    (hres : resolveTarget env assoc.target = none) :
    deserializeModel env m data validateFlag true depth =
      .error (.defError ("Cannot deserialize because association " ++ key ++ " is not defined")) := by
  rw [deserializeModel_def]
  simp only [if_true, hplain, hassocs]
  rw [deserializeAssocsF_head_unresolved ((depth + 1).toNat) env data.objFields key assoc rest
    validateFlag depth (dateCoerce m.attrs (pickObj data.objFields (m.attrs.map Prod.fst)))
    hval hres]

/-! ### Claim C9 -/

/-- Claim C9: when the (possibly lazy) target of an association with a
non-nil value resolves to an undefined model constructor, both
`serialize` and `deserialize` fail with the plain definition `Error`
("Cannot serialize/deserialize because association ... is not defined") —
a `ModelError.defError`, not a `ModelError.validationError`, so it is
never part of any per-attribute validation report; it is raised as soon
as the association is processed, regardless of the `depth` and `validate`
options (the association is stated to sit at the head of the registry,
the point where the loop processes it). -/
theorem c9_unresolved_target_fatal (env : Env) (m : ModelType) (inst data : Value)
    (key : String) (assoc : Association) (rest : List (String × Association))
    (validateFlag : Bool) (depth : Int)
    (hassocs : m.assocs = (key, assoc) :: rest)
    (hres : resolveTarget env assoc.target = none)
    (hval : (getProp inst key).isNil = false)
    (hplain : data.isPlainObject = true)
    (hvald : (getPropObj data.objFields key).isNil = false) :
    serializeModel env m inst true depth =
      .error (.defError ("Cannot serialize because association " ++ key ++ " is not defined")) ∧
    deserializeModel env m data validateFlag true depth =
      .error (.defError ("Cannot deserialize because association " ++ key ++ " is not defined")) :=
  ⟨serializeModel_head_unresolved env m inst key assoc rest depth hassocs hval hres,
   deserializeModel_head_unresolved env m data key assoc rest validateFlag depth hassocs
     hplain hvald hres⟩

/-- A model whose association `friend` has a lazy target resolving to an
undefined constructor, used by the C9 and C10 witnesses. -/
def c9model : ModelType := ⟨[], [("friend", ⟨.belongsTo, .deferred none⟩)], fun _ => []⟩

/-- An instance with a non-nil `friend` value, used by the C9 and C10
witnesses. -/
def c9inst : Value := .vobj [("friend", .vobj [])]

/-- Claim C9 witness: the claim instantiated on `c9model` in an empty
environment, with default depth 1 and validation enabled. -/
theorem c9_witness :
    serializeModel [] c9model c9inst true 1 =
      .error (.defError "Cannot serialize because association friend is not defined") ∧
    deserializeModel [] c9model c9inst true true 1 =
      .error (.defError "Cannot deserialize because association friend is not defined") :=
  c9_unresolved_target_fatal [] c9model c9inst c9inst "friend" ⟨.belongsTo, .deferred none⟩ []
    true 1 rfl rfl (by simp [c9inst, getProp, getPropObj, lookupKey, Value.isNil]) rfl
    (by simp [c9inst, Value.objFields, getPropObj, lookupKey, Value.isNil])

/-! ### Claim C10 -/

/-- Claim C10: in both `serialize` and `deserialize`, a non-nil
association value has its lazy target resolved — and the unresolved-target
definition error thrown — before the depth guard `assocOptions.depth >= 0`
is consulted: even when `depth ≤ 0`, so that no expansion of any
association could occur, the error is still raised. -/
theorem c10_resolution_before_depth (env : Env) (m : ModelType) (inst data : Value)
    (key : String) (t : Option Nat) (rest : List (String × Association))
    (kind : AssocKind) (validateFlag : Bool) (depth : Int)
    (hassocs : m.assocs = (key, ⟨kind, .deferred t⟩) :: rest)
    (hres : resolveTarget env (.deferred t) = none)
    (_hdepth : depth ≤ 0)
    (hval : (getProp inst key).isNil = false)
    (hplain : data.isPlainObject = true)
    (hvald : (getPropObj data.objFields key).isNil = false) :
    serializeModel env m inst true depth =
      .error (.defError ("Cannot serialize because association " ++ key ++ " is not defined")) ∧
    deserializeModel env m data validateFlag true depth =
      .error (.defError ("Cannot deserialize because association " ++ key ++ " is not defined")) :=
  ⟨serializeModel_head_unresolved env m inst key ⟨kind, .deferred t⟩ rest depth hassocs hval hres,
   deserializeModel_head_unresolved env m data key ⟨kind, .deferred t⟩ rest validateFlag depth
     hassocs hplain hvald hres⟩

/-- Claim C10 witness: the claim instantiated on `c9model` with
`depth = 0` — a depth at which the association loop would expand nothing —
still raising the definition error from both directions. -/
theorem c10_witness :
    serializeModel [] c9model c9inst true 0 =
      .error (.defError "Cannot serialize because association friend is not defined") ∧
    deserializeModel [] c9model c9inst false true 0 =
      .error (.defError "Cannot deserialize because association friend is not defined") :=
  c10_resolution_before_depth [] c9model c9inst c9inst "friend" none [] .belongsTo false 0
    rfl rfl (by omega) (by simp [c9inst, getProp, getPropObj, lookupKey, Value.isNil]) rfl
    (by simp [c9inst, Value.objFields, getPropObj, lookupKey, Value.isNil])

/-! ### Claim C5 -/

/-- Claim C5: for a registered to-many (has-many or belongs-to-many)
association whose value is non-nil but not an array, the engines fall
back to an empty array instead of raising: (a) when deserialization
reaches such an association (with the default depth in range), it simply
assigns `[]` under the key and continues with the remaining associations
— no error is produced by this step; (b) end to end, a successful
`deserialize` with default options leaves `[]` at that key on the
resulting instance; (c) and (d) state the same for the serialization
loop and for `serialize` with default options. -/
theorem c5_to_many_non_array_fallback :
    (∀ (fuel : Nat) (env : Env) (dataObj : Obj) (key : String) (assoc : Association)
        (rest : List (String × Association)) (validateFlag : Bool) (depth : Int) (inst : Obj)
        (t : ModelType),
      assoc.kind.isMany = true →
      resolveTarget env assoc.target = some t →
      (getPropObj dataObj key).isNil = false →
      (getPropObj dataObj key).isArray = false →
      0 ≤ depth - 1 →
      deserializeAssocsF fuel env dataObj ((key, assoc) :: rest) validateFlag depth inst =
        deserializeAssocsF fuel env dataObj rest validateFlag depth
          (setProp inst key (.varr []))) ∧
    (∀ (env : Env) (m : ModelType) (fields : Obj) (key : String) (assoc : Association)
        (inst' : Obj),
      (m.assocs.map Prod.fst).Nodup →
      (key, assoc) ∈ m.assocs →
      assoc.kind.isMany = true →
      (getPropObj fields key).isNil = false →
      (getPropObj fields key).isArray = false →
      deserializeModel env m (.vobj fields) true true 1 = .ok (.vobj inst') →
      lookupKey inst' key = some (.varr [])) ∧
    (∀ (fuel : Nat) (env : Env) (inst : Value) (key : String) (assoc : Association)
        (rest : List (String × Association)) (depth : Int) (result : Obj) (t : ModelType),
      assoc.kind.isMany = true →
      resolveTarget env assoc.target = some t →
      (getProp inst key).isNil = false →
      (getProp inst key).isArray = false →
      0 ≤ depth - 1 →
      serializeAssocsF fuel env inst ((key, assoc) :: rest) depth result =
        serializeAssocsF fuel env inst rest depth (setProp result key (.varr []))) ∧
    (∀ (env : Env) (m : ModelType) (inst : Value) (key : String) (assoc : Association)
        (out : Obj),
      (m.assocs.map Prod.fst).Nodup →
      (key, assoc) ∈ m.assocs →
      assoc.kind.isMany = true →
      (getProp inst key).isNil = false →
      (getProp inst key).isArray = false →
      serializeModel env m inst true 1 = .ok (.vobj out) →
      lookupKey out key = some (.varr [])) := by
  refine ⟨?_, ?_, ?_, ?_⟩
  · intro fuel env dataObj key assoc rest validateFlag depth inst t hmany hres hnil harr hg
    simp only [deserializeAssocsF, hnil, hres, hmany, hg, Bool.false_eq_true, if_false,
      if_true]
    cases hval : getPropObj dataObj key with
    | vnil => rfl
    | varr items => rw [hval] at harr; simp [Value.isArray] at harr
    | vbool b => rfl
    | vnum n => rfl
    | vstr s => rfl
    | vdate u => rfl
    | vobj fs => rfl
  · intro env m fields key assoc inst' hnodup hmem hmany hnil harr h
    rw [deserializeModel_def] at h
    simp only [Value.isPlainObject, Value.objFields, if_true] at h
    cases hloop : deserializeAssocsF ((1 + 1 : Int).toNat) env fields m.assocs true 1
        (dateCoerce m.attrs (pickObj fields (m.attrs.map Prod.fst))) with
    | error e => rw [hloop] at h; cases h
    | ok i =>
      rw [hloop] at h
      cases hv : validateModel m (.vobj i) true with
      | some e => simp only [hv, if_true] at h; cases h
      | none =>
        simp only [hv, if_true] at h
        cases h
        exact deserializeAssocsF_many_fallback _ env fields m.assocs true 1 _ inst' key assoc
          hnodup hmem hmany hnil harr (by omega) hloop
  · intro fuel env inst key assoc rest depth result t hmany hres hnil harr hg
    simp only [serializeAssocsF, hnil, hres, hmany, hg, Bool.false_eq_true, if_false, if_true]
    cases hval : getProp inst key with
    | vnil => rfl
    | varr items => rw [hval] at harr; simp [Value.isArray] at harr
    | vbool b => rfl
    | vnum n => rfl
    | vstr s => rfl
    | vdate u => rfl
    | vobj fs => rfl
  · intro env m inst key assoc out hnodup hmem hmany hnil harr h
    rw [serializeModel_def] at h
    simp only [if_true] at h
    cases hloop : serializeAssocsF ((1 + 1 : Int).toNat) env inst m.assocs 1
        (pickObj (toPlainObject inst) (m.attrs.map Prod.fst)) with
    | error e => rw [hloop] at h; cases h
    | ok r =>
      rw [hloop] at h
      cases h
      exact serializeAssocsF_many_fallback _ env inst m.assocs 1 _ out key assoc
        hnodup hmem hmany hnil harr (by omega) hloop

/-- The empty target model of the C5 witness. -/
def c5target : ModelType := ⟨[], [], fun _ => []⟩

/-- The C5 witness environment: just the empty target model. -/
def c5env : Env := [c5target]

/-- The C5 witness model: only the has-many association `children`. -/
def c5model : ModelType := ⟨[], [("children", ⟨.hasMany, .direct (some 0)⟩)], fun _ => []⟩

/-- Claim C5 witness: deserializing `{ children: "not-an-array" }` and
serializing an instance whose `children` is the string `"nope"` both
succeed, with the claim's end-to-end components yielding `children = []`
on the results. -/
theorem c5_witness : ∃ inst' out,
    deserializeModel c5env c5model (.vobj [("children", .vstr "not-an-array")]) true true 1 =
      .ok (.vobj inst') ∧
    lookupKey inst' "children" = some (.varr []) ∧
    serializeModel c5env c5model (.vobj [("children", .vstr "nope")]) true 1 =
      .ok (.vobj out) ∧
    lookupKey out "children" = some (.varr []) := by
  have hdes : deserializeModel c5env c5model (.vobj [("children", .vstr "not-an-array")])
      true true 1 = .ok (.vobj [("children", .varr [])]) := by
    simp [deserializeModel, deserializeF, deserializeAssocsF, deserializeListF, pickObj,
      toPlainObject, dateCoerce, c5model, c5target, c5env, getProp, getPropObj, lookupKey,
      resolveTarget, setProp, AssocKind.isMany, Value.isNil, Value.isPlainObject,
      Value.objFields, Value.isArray, validateModel, collectErrors]
  have hser : serializeModel c5env c5model (.vobj [("children", .vstr "nope")]) true 1 =
      .ok (.vobj [("children", .varr [])]) := by
    simp [serializeModel, serializeF, serializeAssocsF, serializeListF, pickObj, toPlainObject,
      c5model, c5target, c5env, getProp, getPropObj, lookupKey, resolveTarget, setProp,
      AssocKind.isMany, Value.isNil, Value.isArray]
  refine ⟨[("children", .varr [])], [("children", .varr [])], hdes, ?_, hser, ?_⟩
  · exact c5_to_many_non_array_fallback.2.1 c5env c5model [("children", .vstr "not-an-array")]
      "children" ⟨.hasMany, .direct (some 0)⟩ [("children", .varr [])]
      (by simp [c5model]) (List.Mem.head _) rfl
      (by simp [getPropObj, lookupKey, Value.isNil])
      (by simp [getPropObj, lookupKey, Value.isArray]) hdes
  · exact c5_to_many_non_array_fallback.2.2.2 c5env c5model (.vobj [("children", .vstr "nope")])
      "children" ⟨.hasMany, .direct (some 0)⟩ [("children", .varr [])]
      (by simp [c5model]) (List.Mem.head _) rfl
      (by simp [getProp, getPropObj, lookupKey, Value.isNil])
      (by simp [getProp, getPropObj, lookupKey, Value.isArray]) hser

/-! ### Claim C3 -/

/-- Claim C3: for a model type with no registered associations whose
date-typed attributes carry validators accepting only genuine date
values (the externally defined `DATE` type capability, modelled from the
spec), and an instance that passes validation, the round trip
`deserialize(serialize(instance))` with default options succeeds and
yields an instance whose value at every registered attribute key equals
the original's; moreover at every date-typed attribute neither side holds
a string — a non-nil value there is a genuine date value on both sides
(values at date attributes pass through unchanged: serialization keeps
`Date` objects and the deserializer's string-to-date coercion never fires
on them). -/
theorem c3_round_trip (env : Env) (m : ModelType) (fields : Obj)
    (hassoc : m.assocs = [])
    (hdate : ∀ k attr, (k, attr) ∈ m.attrs → attr.typeTag = DATEtype →
      ∃ f, attr.validate = some f ∧ ∀ v, f k v = none → ∃ t, v = .vdate t)
    (hvalid : validateModel m (.vobj fields) true = none) :
    ∃ out,
      serializeModel env m (.vobj fields) true 1 =
        .ok (.vobj (pickObj fields (m.attrs.map Prod.fst))) ∧
      deserializeModel env m (.vobj (pickObj fields (m.attrs.map Prod.fst))) true true 1 =
        .ok (.vobj out) ∧
      (∀ k attr, (k, attr) ∈ m.attrs →
        getProp (.vobj out) k = getProp (.vobj fields) k ∧
        (attr.typeTag = DATEtype →
          (∀ s, getProp (.vobj fields) k ≠ .vstr s) ∧
          ((getProp (.vobj fields) k).isNil = false →
            ∃ t, getProp (.vobj fields) k = .vdate t))) := by
  have hva : ∀ k attr, (k, attr) ∈ m.attrs →
      validateAttr true k attr (m.validations k) (getProp (.vobj fields) k) = [] :=
    fun k attr hm => validateAttr_nil_of_validateModel_none m (.vobj fields) true hvalid k attr hm
  -- Date-typed attributes never hold a string on a validated instance.
  have hnostr : ∀ k attr, (k, attr) ∈ m.attrs → attr.typeTag = DATEtype →
      ∀ s, lookupKey fields k ≠ some (.vstr s) := by
    intro k attr hm htag s hlk
    obtain ⟨f, hf, honly⟩ := hdate k attr hm htag
    have hget : getProp (.vobj fields) k = .vstr s := by
      simp [getProp, getPropObj, hlk]
    have hpass : f k (.vstr s) = none := by
      have := validateAttr_pass_type true k attr (m.validations k) (.vstr s) f hf rfl
        (by rw [← hget]; exact hva k attr hm)
      exact this
    obtain ⟨t, ht⟩ := honly (.vstr s) hpass
    cases ht
  -- Date-typed attributes hold genuine dates whenever non-nil.
  have hdateval : ∀ k attr, (k, attr) ∈ m.attrs → attr.typeTag = DATEtype →
      (getProp (.vobj fields) k).isNil = false → ∃ t, getProp (.vobj fields) k = .vdate t := by
    intro k attr hm htag hnn
    obtain ⟨f, hf, honly⟩ := hdate k attr hm htag
    exact honly _ (validateAttr_pass_type true k attr (m.validations k)
      (getProp (.vobj fields) k) f hf hnn (hva k attr hm))
  have hkeys : ∀ k attr, (k, attr) ∈ m.attrs → k ∈ m.attrs.map Prod.fst := by
    intro k attr hm
    exact List.mem_map.mpr ⟨(k, attr), hm, rfl⟩
  -- The projected object agrees with the original at every attribute key.
  have hgp : ∀ k, k ∈ m.attrs.map Prod.fst →
      getProp (.vobj (pickObj fields (m.attrs.map Prod.fst))) k = getProp (.vobj fields) k := by
    intro k hk
    show getPropObj (pickObj fields (m.attrs.map Prod.fst)) k = getPropObj fields k
    exact getPropObj_pickObj fields (m.attrs.map Prod.fst) k hk
  have hser : serializeModel env m (.vobj fields) true 1 =
      .ok (.vobj (pickObj fields (m.attrs.map Prod.fst))) := by
    rw [serializeModel_def]
    simp only [if_true, hassoc]
    rw [serializeAssocsF_nil]
    rfl
  -- The picked object re-picks to itself and needs no date coercion.
  have hpick : pickObj (pickObj fields (m.attrs.map Prod.fst)) (m.attrs.map Prod.fst) =
      pickObj fields (m.attrs.map Prod.fst) :=
    pickObj_of_subset fields (m.attrs.map Prod.fst) (m.attrs.map Prod.fst) (fun _ hk => hk)
  have hcoerce : dateCoerce m.attrs (pickObj fields (m.attrs.map Prod.fst)) =
      pickObj fields (m.attrs.map Prod.fst) := by
    refine dateCoerce_id m.attrs _ ?_
    intro k attr hm htag s hlk
    rw [lookupKey_pickObj fields (m.attrs.map Prod.fst) k, if_pos (hkeys k attr hm)] at hlk
    exact hnostr k attr hm htag s hlk
  have hrevalid : validateModel m (.vobj (pickObj fields (m.attrs.map Prod.fst))) true = none := by
    refine validateModel_none_of_all_nil m _ true ?_
    intro k attr hm
    rw [hgp k (hkeys k attr hm)]
    exact hva k attr hm
  have hdes : deserializeModel env m (.vobj (pickObj fields (m.attrs.map Prod.fst))) true true 1 =
      .ok (.vobj (pickObj fields (m.attrs.map Prod.fst))) := by
    rw [deserializeModel_def]
    simp only [Value.isPlainObject, Value.objFields, if_true, hassoc]
    rw [deserializeAssocsF_nil, hpick, hcoerce]
    simp only [hrevalid]
  refine ⟨pickObj fields (m.attrs.map Prod.fst), hser, hdes, ?_⟩
  intro k attr hm
  refine ⟨hgp k (hkeys k attr hm), fun htag => ⟨?_, hdateval k attr hm htag⟩⟩
  intro s heq
  have : lookupKey fields k = some (.vstr s) := by
    revert heq
    show getPropObj fields k = .vstr s → lookupKey fields k = some (.vstr s)
    intro heq
    unfold getPropObj at heq
    cases hlk : lookupKey fields k with
    | none => rw [hlk] at heq; cases heq
    | some v => rw [hlk] at heq; cases heq; rfl
  exact hnostr k attr hm htag s this

/-- The `DATE` attribute type's validate capability, modelled from the
spec: concrete attribute type implementations are external, exposing
`validate(key, value)` that fails with a typed error on mismatch — for
the date type, on anything that is not a genuine date value. -/
def c3dateValidator : String → Value → Option ThrownError :=
  fun _ v =>
    match v with
    | .vdate _ => none
    | _ => some (.property "date.invalid" "not a date")

/-- A non-optional date attribute carrying the date validator, used by
the C3 witness. -/
def c3attrWhen : Attribute := ⟨DATEtype, some c3dateValidator, none, false⟩

/-- An optional, validator-less string attribute, used by the C3
witness. -/
def c3attrName : Attribute := ⟨"string", none, none, true⟩

/-- The C3 witness model: attributes `when` (date) and `name` (optional
string), no associations. -/
def c3model : ModelType := ⟨[("when", c3attrWhen), ("name", c3attrName)], [], fun _ => []⟩

/-- The C3 witness instance fields: a genuine date under `when` and an
extraneous `junk` field outside the registry. -/
def c3fields : Obj := [("when", .vdate 42), ("junk", .vnum 9)]

/-- Claim C3 witness: the round-trip claim instantiated on `c3model` and
`c3fields`. -/
theorem c3_witness : ∃ out,
    serializeModel [] c3model (.vobj c3fields) true 1 =
      .ok (.vobj (pickObj c3fields (c3model.attrs.map Prod.fst))) ∧
    deserializeModel [] c3model (.vobj (pickObj c3fields (c3model.attrs.map Prod.fst)))
      true true 1 = .ok (.vobj out) ∧
    (∀ k attr, (k, attr) ∈ c3model.attrs →
      getProp (.vobj out) k = getProp (.vobj c3fields) k ∧
      (attr.typeTag = DATEtype →
        (∀ s, getProp (.vobj c3fields) k ≠ .vstr s) ∧
        ((getProp (.vobj c3fields) k).isNil = false →
          ∃ t, getProp (.vobj c3fields) k = .vdate t))) := by
  refine c3_round_trip [] c3model c3fields rfl ?_ rfl
  intro k attr hm htag
  rcases List.mem_cons.mp hm with heq | hm'
  · cases heq
    refine ⟨c3dateValidator, rfl, ?_⟩
    intro v hv
    cases v with
    | vdate t => exact ⟨t, rfl⟩
    | vnil => cases hv
    | vbool b => cases hv
    | vnum n => cases hv
    | vstr s => cases hv
    | varr xs => cases hv
    | vobj fs => cases hv
  · rcases List.mem_cons.mp hm' with heq | hm''
    · cases heq
      simp [c3attrName, DATEtype] at htag
    · cases hm''
